/-
Verification of the sync-journal and propagator core of the owncloud client
repository, as a shallow embedding in Lean 4.

The embedding follows the C++ sources:
  * src/src/libsync/syncjournaldb.cpp   (SyncJournalDb)
  * src/unnamed/part_000                (OwncloudPropagator, PropagateItemJob,
                                         PropagatorCompositeJob, PropagateDirectory)
  * src/src/mirall/networkjobs.cpp      (CheckServerJob)

The embedded database state is the logical content of the journal's tables
(metadata, blacklist) plus the in-memory etag-invalidation filter and the
transaction counter.  SQL statements are modelled by their effect on that
logical content; `LIKE(x||'/%')` patterns are modelled as the literal
"starts with x ++ \"/\"" test (wildcard characters inside stored paths are
not modelled).  The database connection is assumed open and statements are
assumed to succeed, matching the success paths of the code.
-/

import Mathlib

namespace OCC

/-- Qt's QString::startsWith, on the character sequences of the strings. -/
def strStartsWith (s t : String) : Bool :=
  t.data.isPrefixOf s.data

/-- Modelled from the spec: the 64-bit path hash `c_jhash64` lives in
`csync/src/std/c_jhash.h`, which is not part of the sources under `src/`.
Per the spec (section 3, PathHash) any stable hash used consistently for
read and write is acceptable and the path uniquely determines the hash, so
the hash is modelled as a stable injective encoding of the character list
(an iterated Nat.pair).  Hash collisions of the real 64-bit hash are outside
the model. -/
def pathVal (l : List Char) : Nat :=
  l.foldl (fun a c => Nat.pair a c.toNat + 1) 0

/-- SyncJournalDb::getPHash: the empty path yields the sentinel -1, any other
path is hashed (see `pathVal` for how the missing `c_jhash64` is modelled). -/
def getPHash (file : String) : Int :=
  if file = "" then -1 else Int.ofNat (pathVal file.data)

/-- SyncJournalFileRecord (syncjournalfilerecord.h is not under src/; the
fields are those read and written by SyncJournalDb::getFileRecord and
SyncJournalDb::setFileRecord).  A default-constructed record (all fields
empty/zero) is what getFileRecord returns when no row is found. -/
structure SyncJournalFileRecord where
  path : String := ""
  inode : Nat := 0
  uid : Nat := 0
  gid : Nat := 0
  mode : Int := 0
  modtime : Nat := 0
  type : Nat := 0
  etag : String := ""
  fileId : String := ""
  remotePerm : String := ""
  fileSize : Int := 0
deriving DecidableEq

/-- One row of the `metadata` table, with the columns of the CREATE TABLE in
SyncJournalDb::checkConnect plus the migration columns fileid, remotePerm,
filesize. -/
structure MetaRow where
  phash : Int
  pathlen : Nat
  path : String
  inode : Nat
  uid : Nat
  gid : Nat
  mode : Int
  modtime : Nat
  type : Nat
  md5 : String
  fileid : String
  remotePerm : String
  filesize : Int
deriving DecidableEq

/-- One row of the `blacklist` table (SyncJournalBlacklistRecord, also called
SyncJournalErrorBlacklistRecord by the propagator sources; its own header is
not under src/, the fields are the columns read and written by
SyncJournalDb). -/
structure SyncJournalBlacklistRecord where
  file : String := ""
  lastTryEtag : String := ""
  lastTryModtime : Nat := 0
  retryCount : Nat := 0
  errorString : String := ""
  lastTryTime : Nat := 0
  ignoreDuration : Nat := 0
deriving DecidableEq

/-- The logical state of a SyncJournalDb: the rows of the metadata and
blacklist tables, the in-memory `_avoidReadFromDbOnNextSyncFilter`, and the
`_transaction` counter. -/
structure JournalState where
  metadata : List MetaRow := []
  blacklist : List SyncJournalBlacklistRecord := []
  avoidReadFromDbOnNextSyncFilter : List String := []
  transaction : Nat := 0
deriving DecidableEq

namespace SyncJournalDb

/-- SyncJournalDb::startTransaction: opens a transaction only when none is
running; otherwise it logs and leaves the state unchanged.  (The model takes
the success path of `_db.transaction()`.) -/
def startTransaction (j : JournalState) : JournalState :=
  if j.transaction = 0 then { j with transaction := 1 } else j

/-- SyncJournalDb::commitTransaction: commits only when a transaction is
running; otherwise it logs and leaves the state unchanged. -/
def commitTransaction (j : JournalState) : JournalState :=
  if j.transaction = 1 then { j with transaction := 0 } else j

/-- SyncJournalDb::commitInternal: commit, then optionally start a new
transaction. -/
def commitInternal (startTrans : Bool) (j : JournalState) : JournalState :=
  let j := commitTransaction j
  if startTrans then startTransaction j else j

/-- SyncJournalDb::commitIfNeededAndStartNewTransaction. -/
def commitIfNeededAndStartNewTransaction (j : JournalState) : JournalState :=
  if j.transaction = 1 then commitInternal true j else startTransaction j

/-- SyncJournalDb::setFileRecord.  First the etag-invalidation filter is
applied: if some filter member extends `record.path ++ "/"` the stored etag
becomes "_invalid_" (the C++ guards with `!filter.isEmpty()`, which is
subsumed by the `any` over the list).  Then the row is stored by
`INSERT OR REPLACE` keyed on the path hash. -/
def setFileRecord (record : SyncJournalFileRecord) (j : JournalState) : JournalState :=
  let record :=
    if j.avoidReadFromDbOnNextSyncFilter.any (fun it => strStartsWith it (record.path ++ "/"))
    then { record with etag := "_invalid_" } else record
  let ph := getPHash record.path
  let row : MetaRow :=
    { phash := ph
      pathlen := record.path.utf8ByteSize
      path := record.path
      inode := record.inode
      uid := 0
      gid := 0
      mode := record.mode
      modtime := record.modtime
      type := record.type
      md5 := record.etag
      fileid := record.fileId
      remotePerm := record.remotePerm
      filesize := record.fileSize }
  { j with metadata := row :: j.metadata.filter (fun r => !(r.phash == ph)) }

/-- SyncJournalDb::getFileRecord: look the row up by path hash; a
default-constructed record is returned when no row matches.  The uid/gid
columns are not read back (the assignments are commented out in the C++). -/
def getFileRecord (filename : String) (j : JournalState) : SyncJournalFileRecord :=
  let ph := getPHash filename
  match j.metadata.find? (fun row => row.phash == ph) with
  | some row =>
      { path := row.path
        inode := row.inode
        uid := 0
        gid := 0
        mode := row.mode
        modtime := row.modtime
        type := row.type
        etag := row.md5
        fileId := row.fileid
        remotePerm := row.remotePerm
        fileSize := row.filesize }
  | none => {}

/-- SyncJournalDb::deleteFileRecord: always delete the row keyed by the path
hash; when `recursively` also delete every row whose path matches
`filename || '/%'`. -/
def deleteFileRecord (filename : String) (recursively : Bool) (j : JournalState) : JournalState :=
  let ph := getPHash filename
  let md := j.metadata.filter (fun r => !(r.phash == ph))
  let md := if recursively then md.filter (fun r => !(strStartsWith r.path (filename ++ "/"))) else md
  { j with metadata := md }

/-- SyncJournalDb::avoidReadFromDbOnNextSync: clear (set to "_invalid_") the
etag of every directory row (`type == 2`) whose path is a proper ancestor of
`fileName` (the SQL is `?1 LIKE(path||'/%') AND type == 2`), then record
`fileName` in the in-memory filter set. -/
def avoidReadFromDbOnNextSync (fileName : String) (j : JournalState) : JournalState :=
  { j with
    metadata := j.metadata.map (fun r =>
      if strStartsWith fileName (r.path ++ "/") && r.type == 2
      then { r with md5 := "_invalid_" } else r)
    avoidReadFromDbOnNextSyncFilter := j.avoidReadFromDbOnNextSyncFilter ++ [fileName] }

/-- SyncJournalDb::close: commits the open transaction and clears the
in-memory filter set.  The on-disk tables survive. -/
def close (j : JournalState) : JournalState :=
  { commitTransaction j with avoidReadFromDbOnNextSyncFilter := [] }

/-- SyncJournalDb::blacklistEntry: the empty path short-circuits to a
default (unset) record without touching the store; otherwise the row keyed
by the path is looked up and, only on a hit, its `_file` field is set to
the queried path. -/
def blacklistEntry (file : String) (j : JournalState) : SyncJournalBlacklistRecord :=
  if file = "" then {}
  else
    match j.blacklist.find? (fun r => r.file == file) with
    | some r => { r with file := file }
    | none => {}

/-- SyncJournalDb::updateBlacklistEntry: `INSERT OR REPLACE` keyed on the
path. -/
def updateBlacklistEntry (item : SyncJournalBlacklistRecord) (j : JournalState) : JournalState :=
  { j with blacklist := item :: j.blacklist.filter (fun r => !(r.file == item.file)) }

/-- SyncJournalDb::wipeBlacklistEntry: the empty path returns immediately;
otherwise the row keyed by the path is deleted. -/
def wipeBlacklistEntry (file : String) (j : JournalState) : JournalState :=
  if file = "" then j
  else { j with blacklist := j.blacklist.filter (fun r => !(r.file == file)) }

end SyncJournalDb

/-- Well-formedness of the journal metadata: every row is keyed by the hash
of its own path, which is how every row produced by setFileRecord is built. -/
def wfJournal (j : JournalState) : Prop :=
  ∀ row ∈ j.metadata, row.phash = getPHash row.path

/-- SyncFileItem::Status (syncfileitem.h is not under src/; the values are
the ones the propagator sources use, listed in spec section 7). -/
inductive Status where
  | NoStatus
  | FatalError
  | NormalError
  | SoftError
  | Success
  | Conflict
  | FileIgnored
  | Restoration
deriving DecidableEq

/-- csync instruction vocabulary (spec section 6), as consumed by the
propagator sources. -/
inductive Instruction where
  | NONE
  | REMOVE
  | NEW
  | RENAME
  | SYNC
  | CONFLICT
  | IGNORE
  | ERROR
  | TYPE_CHANGE
  | UPDATE_METADATA
deriving DecidableEq

/-- SyncFileItem::Direction. -/
inductive Direction where
  | Up
  | Down
  | NoDirection
deriving DecidableEq

/-- SyncFileItem (syncfileitem.h is not under src/; the fields are those the
propagator sources read and write, cf. spec section 3). -/
structure SyncFileItem where
  file : String := ""
  originalFile : String := ""
  renameTarget : String := ""
  errorString : String := ""
  etag : String := ""
  modtime : Nat := 0
  instruction : Instruction := .NONE
  direction : Direction := .NoDirection
  isDirectory : Bool := false
  isRestoration : Bool := false
  hasBlacklistEntry : Bool := false
  errorMayBeBlacklisted : Bool := false
  status : Status := .NoStatus
deriving DecidableEq

/-- Modelled from the spec: SyncFileItem::destination (syncfileitem.h is not
under src/) is the path the item ends up at: the rename target when one is
set, the file path otherwise. -/
def SyncFileItem.destination (i : SyncFileItem) : String :=
  if i.renameTarget = "" then i.file else i.renameTarget

/-- Modelled from the spec: whether a blacklist record is set/retriable
(SyncJournalErrorBlacklistRecord::isValid lives in syncjournalfilerecord.cpp,
which is not under src/).  A default (unset) record is invalid; a recomputed
record carries the item's path and a positive last-try time. -/
def SyncJournalBlacklistRecord.isValid (r : SyncJournalBlacklistRecord) : Bool :=
  !(r.file == "") && r.lastTryTime > 0

/-- Modelled from the spec: base ignore window of a fresh blacklist entry
(configured value; the exact number is not fixed by the spec). -/
def baseBlacklistTime : Nat := 25

/-- Modelled from the spec: configured maximum bounding the doubling of
ignoreDuration. -/
def maxBlacklistTime : Nat := 24 * 60 * 60

/-- Modelled from the spec: SyncJournalErrorBlacklistRecord::update
(syncjournalfilerecord.cpp is not under src/).  Per spec section 4.4 the
update increments retryCount, doubles ignoreDuration bounded by a
configured max, and refreshes lastTryEtag/modtime/time from the item and the
current time. -/
def SyncJournalBlacklistRecord.update (old : SyncJournalBlacklistRecord)
    (item : SyncFileItem) (now : Nat) : SyncJournalBlacklistRecord :=
  { file := item.file
    lastTryEtag := item.etag
    lastTryModtime := item.modtime
    retryCount := old.retryCount + 1
    errorString := item.errorString
    lastTryTime := now
    ignoreDuration :=
      min (if old.ignoreDuration = 0 then baseBlacklistTime else old.ignoreDuration * 2)
        maxBlacklistTime }

/-- blacklistCheck (part_000): recompute the blacklist entry from the stored
one and the item, store it when valid, otherwise wipe a stale stored entry;
return whether the error should be suppressed (new entry valid with a
positive ignore window) together with the updated journal.  `now` stands for
the current time read inside the update. -/
def blacklistCheck (j : JournalState) (item : SyncFileItem) (now : Nat) :
    Bool × JournalState :=
  let oldEntry := SyncJournalDb.blacklistEntry item.file j
  let newEntry := oldEntry.update item now
  let j :=
    if newEntry.isValid then SyncJournalDb.updateBlacklistEntry newEntry j
    else if oldEntry.isValid then SyncJournalDb.wipeBlacklistEntry item.file j
    else j
  (newEntry.isValid && decide (newEntry.ignoreDuration > 0), j)

/-- The observable result of PropagateItemJob::done: the emitted terminal
status, the item as mutated, the journal as mutated, and whether a
propagator-wide abort is triggered (FatalError). -/
structure DoneResult where
  status : Status
  item : SyncFileItem
  journal : JournalState
  abortTriggered : Bool
deriving DecidableEq

namespace PropagateItemJob

/-- The opening of PropagateItemJob::done: restoration items turn
Success/Conflict into Restoration and append a "Restoration Failed" note to
the error string otherwise; ordinary items adopt the passed error string
when theirs is still empty. -/
def doneRestorationStep (item : SyncFileItem) (status : Status) (errorString : String) :
    Status × SyncFileItem :=
  if item.isRestoration then
    if status = .Success ∨ status = .Conflict then (Status.Restoration, item)
    else (status,
      { item with errorString := item.errorString ++ "; Restoration Failed: " ++ errorString })
  else
    (status, if item.errorString = "" then { item with errorString := errorString } else item)

/-- The abort downgrade of PropagateItemJob::done: while an abort request is
ongoing, NormalError and FatalError become SoftError. -/
def doneAbortStep (abortRequested : Bool) (status : Status) : Status :=
  if abortRequested ∧ (status = .NormalError ∨ status = .FatalError)
  then Status.SoftError else status

/-- The status switch of PropagateItemJob::done: for the three error
statuses, blacklist bookkeeping runs when the error is a NormalError or the
item opted in via errorMayBeBlacklisted, and the error is suppressed to
FileIgnored (with the "Continue blacklisting:" marker prepended) when the
check suppresses and the item already had a blacklist entry; on
Success/Restoration a stale blacklist entry (and the one under the original
name of a moved file) is wiped; the remaining statuses change nothing. -/
def doneStatusSwitch (j : JournalState) (item : SyncFileItem) (status : Status)
    (now : Nat) : Status × SyncFileItem × JournalState :=
  match status with
  | .SoftError | .FatalError | .NormalError =>
    if status = .NormalError ∨ item.errorMayBeBlacklisted then
      let bc := blacklistCheck j item now
      if bc.1 ∧ item.hasBlacklistEntry then
        (Status.FileIgnored,
         { item with errorString := "Continue blacklisting: " ++ item.errorString },
         bc.2)
      else (status, item, bc.2)
    else (status, item, j)
  | .Success | .Restoration =>
    if item.hasBlacklistEntry then
      let j2 := SyncJournalDb.wipeBlacklistEntry item.file j
      let j3 := if item.originalFile ≠ item.file
                then SyncJournalDb.wipeBlacklistEntry item.originalFile j2 else j2
      (status, item, j3)
    else (status, item, j)
  | _ => (status, item, j)

/-- PropagateItemJob::done (part_000).  `abortRequested` is the propagator's
flag, `now` the current time used by the blacklist update.  Steps, in code
order: restoration handling of the incoming status/error string, downgrade
of NormalError/FatalError to SoftError while an abort is ongoing, then the
status switch (blacklist suppression for errors, blacklist wipe on
success); finally the item records its terminal status and a FatalError
triggers the propagator-wide abort. -/
def done (abortRequested : Bool) (j : JournalState) (item : SyncFileItem)
    (status : Status) (errorString : String) (now : Nat) : DoneResult :=
  let si := doneRestorationStep item status errorString
  let st := doneAbortStep abortRequested si.1
  let sij := doneStatusSwitch j si.2 st now
  { status := sij.1
    item := { sij.2.1 with status := sij.1 }
    journal := sij.2.2
    abortTriggered := sij.1 = .FatalError }

end PropagateItemJob

/-- Whether a status is one of the three error statuses recorded by
PropagatorCompositeJob::slotSubJobFinished. -/
def isErrorStatus (s : Status) : Bool :=
  s = .FatalError ∨ s = .NormalError ∨ s = .SoftError

/-- The `_hasError` update of PropagatorCompositeJob::slotSubJobFinished:
an error status of a finished sub-job overwrites the stored value. -/
def updateHasError (hasError status : Status) : Status :=
  if isErrorStatus status then status else hasError

/-- The status a PropagatorCompositeJob emits from finalize() after its
children finished with the given sequence of statuses: `_hasError` starts at
NoStatus (no error recorded yet), each child completion runs the
slotSubJobFinished update, and finalize emits Success when `_hasError` is
still NoStatus.  -/
def compositeEmittedStatus (children : List Status) : Status :=
  match children.foldl updateHasError .NoStatus with
  | .NoStatus => .Success
  | e => e

/-- Severity rank of the non-success statuses, following the claim's wording
"FatalError over NormalError over SoftError". -/
def statusSeverity (s : Status) : Nat :=
  match s with
  | .FatalError => 3
  | .NormalError => 2
  | .SoftError => 1
  | _ => 0

/-- The status the claim predicts for a composite: the most severe
non-success status seen among the children, or Success if no child reported
an error.  This definition follows the spec's words and is compared against
`compositeEmittedStatus`, which follows the code. -/
def mostSevereStatus (children : List Status) : Status :=
  match children.foldl (fun acc s => if statusSeverity acc < statusSeverity s then s else acc)
      .NoStatus with
  | .NoStatus => .Success
  | e => e

/-- The status the code actually aggregates, stated in closed form: the most
recently seen error status among the children, or Success if no child
reported an error.  Used to phrase the amended claim. -/
def lastErrorStatus (children : List Status) : Status :=
  match (children.filter isErrorStatus).getLast? with
  | some e => e
  | none => .Success

/-- The job tree built by OwncloudPropagator::start.  A `dir` node is a
PropagateDirectory (its item, the affected count used for removed
directories, the sub-jobs of its composite, and the composite's tasks that
will lazily become leaf jobs); a `leaf` node is a concrete PropagateItemJob
created by createJob. -/
inductive PJob where
  | leaf (item : SyncFileItem)
  | dir (item : Option SyncFileItem) (affected : Nat) (jobs : List PJob)
      (tasks : List SyncFileItem)

mutual

/-- Number of leaf-level jobs in a tree: `leaf` nodes plus appended tasks
(each task is turned into exactly one leaf job when scheduled). -/
def PJob.leafCount : PJob → Nat
  | .leaf _ => 1
  | .dir _ _ jobs tasks => PJob.leafCountList jobs + tasks.length

def PJob.leafCountList : List PJob → Nat
  | [] => 0
  | job :: jobs => job.leafCount + PJob.leafCountList jobs

end

mutual

/-- Number of PropagateDirectory nodes in a tree (the root, which carries no
item, is one of them). -/
def PJob.dirCount : PJob → Nat
  | .leaf _ => 0
  | .dir _ _ jobs _ => 1 + PJob.dirCountList jobs

def PJob.dirCountList : List PJob → Nat
  | [] => 0
  | job :: jobs => job.dirCount + PJob.dirCountList jobs

end

namespace OwncloudPropagator

/-- OwncloudPropagator::createJob, restricted to the shape of the produced
job: every instruction case constructs one concrete leaf job for the item
(local/remote remove, mkdir, download, upload, move, ignore), while the
default case (NONE, UPDATE_METADATA) returns null. -/
def createJob (item : SyncFileItem) : Option PJob :=
  match item.instruction with
  | .REMOVE | .NEW | .TYPE_CHANGE | .SYNC | .CONFLICT | .RENAME | .IGNORE | .ERROR =>
      some (.leaf item)
  | .NONE | .UPDATE_METADATA => none

/-- One frame of the `directories` stack in OwncloudPropagator::start: the
pushed directory name, the PropagateDirectory being built (item, affected
count, jobs, tasks), and whether the job was prepended to
`directoriesToRemove` (in which case `slotId` names its reserved slot there
instead of a position in the parent's job list). -/
structure DirFrame where
  path : String
  item : Option SyncFileItem
  isRemove : Bool
  slotId : Nat
  affected : Nat
  jobs : List PJob
  tasks : List SyncFileItem

/-- One entry of `directoriesToRemove`: either an already complete job (the
createJob result of a non-directory TYPE_CHANGE) or the reserved slot of a
removed directory whose PropagateDirectory is still on the stack collecting
children. -/
inductive RSlot where
  | job (j : PJob)
  | pending (id : Nat)

/-- The loop state of OwncloudPropagator::start.  The C++ mutates shared
SyncFileItemPtr objects in place; the functional model instead keeps the
directory currently being filled on the stack until it is popped, and keeps
the TYPE_CHANGE-Up instruction overwrite lazily as the list `overrideDirs`
(the overwrite is applied to each later item when the loop reaches it, which
yields the same tree: an already-appended item is only read again by the
scheduler, not by the tree construction).  The stack is never empty: `top`
is its topmost frame and `below` the rest, the last entry of which is the
root frame (path "", no item). -/
structure StartState where
  top : DirFrame
  below : List DirFrame
  toRemove : List RSlot
  removedDirectory : String
  overrideDirs : List String
  nextId : Nat
  anotherSyncNeeded : Bool

/-- The PropagateDirectory a finished stack frame stands for. -/
def frameToJob (f : DirFrame) : PJob :=
  .dir f.item f.affected f.jobs f.tasks

/-- The lazily applied `item2->_instruction = CSYNC_INSTRUCTION_NONE`
overwrite performed by the TYPE_CHANGE-Up directory case: an item whose
destination lies below a recorded directory is processed as NONE. -/
def applyOverride (dirs : List String) (i : SyncFileItem) : SyncFileItem :=
  if dirs.any (fun d => strStartsWith i.destination (d ++ "/"))
  then { i with instruction := .NONE } else i

/-- `delDirJob->increaseAffectedCount()` on
`directoriesToRemove.first()`: when the first entry is a directory job its
affected count is bumped; when it is a pending slot the bump goes to the
stack frame owning that slot; a first entry that is not a PropagateDirectory
(the qobject_cast yields null) is left alone. -/
def increaseAffectedOnHead (s : StartState) : StartState :=
  match s.toRemove with
  | .job (.dir it a js ts) :: rest =>
      { s with toRemove := .job (.dir it (a + 1) js ts) :: rest }
  | .pending id :: _ =>
      let bump := fun (f : DirFrame) =>
        if f.isRemove ∧ f.slotId = id then { f with affected := f.affected + 1 } else f
      { s with top := bump s.top, below := s.below.map bump }
  | _ => s

/-- Replace the pending slot `id` of `directoriesToRemove` by the finished
job. -/
def fillSlot (slots : List RSlot) (id : Nat) (j : PJob) : List RSlot :=
  slots.map fun sl =>
    match sl with
    | .pending n => if n = id then .job j else sl
    | .job _ => sl

/-- Fold the topmost stack frame into its parent (`directories.pop()`): an
ordinary frame becomes the next job of its parent's composite (the C++
appended the job at creation time; appending at pop time produces the same
order because a parent only receives its next job after the previous child
frame was popped), while a removed frame fills its reserved
`directoriesToRemove` slot. -/
def popInto (f : DirFrame) (parent : DirFrame) (slots : List RSlot) :
    DirFrame × List RSlot :=
  if f.isRemove then (parent, fillSlot slots f.slotId (frameToJob f))
  else ({ parent with jobs := parent.jobs ++ [frameToJob f] }, slots)

/-- The `while (!item->destination().startsWith(directories.top().first))
directories.pop();` loop.  The root frame's path is "" and matches every
destination, so the stack never empties. -/
def popFrames (dest : String) :
    DirFrame → List DirFrame → List RSlot → DirFrame × List DirFrame × List RSlot
  | top, [], slots => (top, [], slots)
  | top, parent :: rest, slots =>
      if strStartsWith dest top.path then (top, parent :: rest, slots)
      else
        let ps := popInto top parent slots
        popFrames dest ps.1 rest ps.2

/-- Popping every remaining frame after the item walk: the implicit
destruction of the stack, folding every open directory into its parent and
filling the remaining removed-directory slots. -/
def popAllFrames : DirFrame → List DirFrame → List RSlot → DirFrame × List RSlot
  | top, [], slots => (top, slots)
  | top, parent :: rest, slots =>
      let ps := popInto top parent slots
      popAllFrames ps.1 rest ps.2

/-- The nullification of pending UPDATE_METADATA instructions on the
directories currently on the stack, performed when a removed directory is
encountered (don't refresh the etags of the doomed directory's parents this
run). -/
def nullifyUpdateMetadata (f : DirFrame) : DirFrame :=
  match f.item with
  | some it =>
      if it.instruction = .UPDATE_METADATA
      then { f with item := some { it with instruction := .NONE } } else f
  | none => f

/-- The per-item processing of OwncloudPropagator::start once past the
removed-directory branch (`item` is already the effective, possibly
overridden, item; `rest` is the remainder of the vector, used for the
TYPE_CHANGE-Up `_anotherSyncNeeded` update). -/
def stepNormal (item : SyncFileItem) (rest : List SyncFileItem) (s : StartState) :
    StartState :=
  let pf := popFrames item.destination s.top s.below s.toRemove
  let s := { s with top := pf.1, below := pf.2.1, toRemove := pf.2.2 }
  if item.isDirectory then
    let s :=
      if item.instruction = .TYPE_CHANGE ∧ item.direction = .Up then
        { s with overrideDirs := item.destination :: s.overrideDirs,
                 anotherSyncNeeded := s.anotherSyncNeeded ||
                   rest.any (fun i2 => strStartsWith i2.destination (item.destination ++ "/")) }
      else s
    if item.instruction = .REMOVE then
      let newFrame : DirFrame :=
        { path := item.destination ++ "/", item := some item, isRemove := true,
          slotId := s.nextId, affected := 0, jobs := [], tasks := [] }
      { s with top := newFrame,
               below := nullifyUpdateMetadata s.top :: s.below.map nullifyUpdateMetadata,
               toRemove := .pending s.nextId :: s.toRemove, nextId := s.nextId + 1,
               removedDirectory := item.file ++ "/" }
    else
      let newFrame : DirFrame :=
        { path := item.destination ++ "/", item := some item, isRemove := false,
          slotId := 0, affected := 0, jobs := [], tasks := [] }
      { s with top := newFrame, below := s.top :: s.below }
  else
    if item.instruction = .TYPE_CHANGE then
      let tr :=
        match createJob item with
        | some job => RSlot.job job :: s.toRemove
        | none => s.toRemove
      { s with toRemove := tr, removedDirectory := item.file ++ "/" }
    else
      { s with top := { s.top with tasks := s.top.tasks ++ [item] } }

/-- The item walk of OwncloudPropagator::start, including the
removed-directory branch that absorbs removals and new directories inside a
directory that is going to be removed, skips ignored items there, and lets
renames (and, with a warning, everything else) continue normally. -/
def processItems : List SyncFileItem → StartState → StartState
  | [], s => s
  | item0 :: rest, s =>
      let item := applyOverride s.overrideDirs item0
      if s.removedDirectory ≠ "" ∧ strStartsWith item.file s.removedDirectory then
        if item.instruction = .REMOVE then
          processItems rest (increaseAffectedOnHead s)
        else if item.isDirectory ∧ (item.instruction = .NEW ∨ item.instruction = .TYPE_CHANGE) then
          processItems rest (increaseAffectedOnHead s)
        else if item.instruction = .IGNORE then
          processItems rest s
        else
          processItems rest (stepNormal item rest s)
      else
        processItems rest (stepNormal item rest s)

/-- The root frame: `directories.push(qMakePair(QString(), _rootJob.data()))`
with the item-less root PropagateDirectory. -/
def rootFrame : DirFrame :=
  { path := "", item := none, isRemove := false, slotId := 0, affected := 0,
    jobs := [], tasks := [] }

/-- The initial loop state of OwncloudPropagator::start. -/
def initialStartState : StartState :=
  { top := rootFrame, below := [], toRemove := [], removedDirectory := "",
    overrideDirs := [], nextId := 1, anotherSyncNeeded := false }

/-- Extract the jobs of the finished `directoriesToRemove` vector (after the
walk every slot has been filled). -/
def slotsToJobs (slots : List RSlot) : List PJob :=
  slots.filterMap fun sl =>
    match sl with
    | .job j => some j
    | .pending _ => none

/-- OwncloudPropagator::start: build the job tree for a vector of items —
walk the items, then append every `directoriesToRemove` job to the root. -/
def start (items : List SyncFileItem) : PJob :=
  let s := processItems items initialStartState
  let rs := popAllFrames s.top s.below s.toRemove
  .dir rs.1.item rs.1.affected (rs.1.jobs ++ slotsToJobs rs.2) rs.1.tasks

/-- Whether an item, when processed, starts a pending removed-directory
prefix (a removed directory, or a non-directory TYPE_CHANGE whose execution
removes the existing directory). -/
def isRemover (i : SyncFileItem) : Bool :=
  (i.isDirectory && i.instruction == .REMOVE) ||
  (!i.isDirectory && i.instruction == .TYPE_CHANGE)

/-- The removedDirectory value after processing one effective item. -/
def nextRemovedDirectory (i : SyncFileItem) (rd : String) : String :=
  if isRemover i then i.file ++ "/" else rd

/-- The overrideDirs value after processing one effective item. -/
def nextOverrideDirs (i : SyncFileItem) (ov : List String) : List String :=
  if i.isDirectory ∧ i.instruction = .TYPE_CHANGE ∧ i.direction = .Up
  then i.destination :: ov else ov

/-- The side condition of the amended tree-shape claim: no item of the
vector falls inside a pending removed-directory prefix, so the absorbing
branch of the walk never fires.  The recursion mirrors the walk's own
updates of the override list and of removedDirectory. -/
def noAbsorption : List SyncFileItem → List String → String → Bool
  | [], _, _ => true
  | item0 :: rest, ov, rd =>
      let item := applyOverride ov item0
      if rd ≠ "" ∧ strStartsWith item.file rd then false
      else noAbsorption rest (nextOverrideDirs item ov) (nextRemovedDirectory item rd)

/-- Number of directory items of a vector. -/
def dirItemCount (items : List SyncFileItem) : Nat :=
  (items.filter fun i => i.isDirectory).length

/-- Number of non-directory items of a vector. -/
def nonDirItemCount (items : List SyncFileItem) : Nat :=
  (items.filter fun i => !i.isDirectory).length

/-- Lexicographic order on character sequences, the order in which QString
compares the destination paths. -/
def charListLe : List Char → List Char → Bool
  | [], _ => true
  | _ :: _, [] => false
  | c1 :: t1, c2 :: t2 => if c1 = c2 then charListLe t1 t2 else decide (c1 < c2)

/-- Sortedness of the input vector by destination, as asserted by
OwncloudPropagator::start. -/
def sortedItems (items : List SyncFileItem) : Prop :=
  items.Pairwise fun a b => charListLe a.destination.data b.destination.data = true

/-- Pairwise distinct paths, the hypothesis of the claim. -/
def distinctPaths (items : List SyncFileItem) : Prop :=
  items.Pairwise fun a b => a.file ≠ b.file

/-- Leaf-level jobs held by an open stack frame. -/
def frameLeaf (f : DirFrame) : Nat :=
  PJob.leafCountList f.jobs + f.tasks.length

/-- Directory jobs held by an open stack frame, the frame's own directory
included. -/
def frameDir (f : DirFrame) : Nat :=
  1 + PJob.dirCountList f.jobs

/-- Leaf-level jobs held by a directoriesToRemove entry. -/
def slotLeaf : RSlot → Nat
  | .job j => j.leafCount
  | .pending _ => 0

/-- Directory jobs held by a directoriesToRemove entry. -/
def slotDir : RSlot → Nat
  | .job j => j.dirCount
  | .pending _ => 0

/-- Total number of leaf-level jobs distributed over the walk state. -/
def partsLeaf (top : DirFrame) (below : List DirFrame) (slots : List RSlot) : Nat :=
  frameLeaf top + (below.map frameLeaf).sum + (slots.map slotLeaf).sum

/-- Total number of directory jobs distributed over the walk state. -/
def partsDir (top : DirFrame) (below : List DirFrame) (slots : List RSlot) : Nat :=
  frameDir top + (below.map frameDir).sum + (slots.map slotDir).sum

/-- The reserved (not yet filled) slot ids of directoriesToRemove, in
order. -/
def pendingIds (slots : List RSlot) : List Nat :=
  slots.filterMap fun sl =>
    match sl with
    | .pending n => some n
    | .job _ => none

/-- The slot ids of the removed-directory frames on the stack, topmost
first. -/
def removeIds (top : DirFrame) (below : List DirFrame) : List Nat :=
  (top :: below).filterMap fun f => if f.isRemove then some f.slotId else none

/-- The bottom frame of the stack (the root frame of the walk). -/
def lastFrame (top : DirFrame) (below : List DirFrame) : DirFrame :=
  below.getLast?.getD top

/-- The walk-state invariant: reserved slots and removed frames correspond
one to one and in order, slot ids are unambiguous and below the id counter,
and the bottom of the stack is the ordinary root frame. -/
def partsInv (top : DirFrame) (below : List DirFrame) (slots : List RSlot) (nid : Nat) : Prop :=
  pendingIds slots = removeIds top below ∧
  (pendingIds slots).Nodup ∧
  (∀ n ∈ pendingIds slots, n < nid) ∧
  (lastFrame top below).isRemove = false

/-- The walk-state invariant, on a StartState. -/
def InvState (s : StartState) : Prop :=
  partsInv s.top s.below s.toRemove s.nextId

end OwncloudPropagator

end OCC

namespace Mirall

/-- The URL of a request or redirect target, with the scheme separated out
because the redirect policy inspects it. -/
structure Url where
  scheme : String
  hostPath : String
deriving DecidableEq

/-- Modelled from the spec: the MAX_REDIRECTS bound lives in
mirall/networkjobs.h, which is not under src/; the spec fixes no value, ten
is used here. -/
def MAX_REDIRECTS : Nat := 10

/-- What CheckServerJob::slotFinished does with a non-empty redirect
target. -/
inductive RedirectHandling where
  | processCurrentReply
  | replyDiscardedNoNewRequest
deriving DecidableEq

namespace CheckServerJob

/-- The redirect branch of CheckServerJob::slotFinished: the redirect count
is incremented; an HTTPS to HTTP downgrade, a redirect loop (target equals
the requested URL) and an exhausted hop budget all fall through to parsing
the current reply as a status.php answer; in every other case the reply is
taken (takeReply, leaving a null reply behind) and the re-issue of the
request to the redirect target is commented out in the code
(`// ### FIXME  //setReply(getRequest(redirectUrl));`), so no new request is
made.  Returns the handling together with the new redirect count. -/
def slotFinishedRedirect (requestedUrl redirectUrl : Url)
    (redirectCountBefore : Nat) : RedirectHandling × Nat :=
  let redirectCount := redirectCountBefore + 1
  if requestedUrl.scheme = "https" ∧ redirectUrl.scheme = "http" then
    (.processCurrentReply, redirectCount)
  else if requestedUrl = redirectUrl ∨ redirectCount ≥ MAX_REDIRECTS then
    (.processCurrentReply, redirectCount)
  else
    (.replyDiscardedNoNewRequest, redirectCount)

end CheckServerJob

end Mirall

/-! Helper lemmas about the path hash and the startsWith test. -/

namespace OCC

theorem pathVal_concat (l : List Char) (c : Char) :
    pathVal (l ++ [c]) = Nat.pair (pathVal l) c.toNat + 1 := by
  simp [pathVal, List.foldl_append]

theorem char_toNat_inj {a b : Char} (h : a.toNat = b.toNat) : a = b := by
  have h2 := congrArg Char.ofNat h
  rwa [Char.ofNat_toNat, Char.ofNat_toNat] at h2

theorem pathVal_inj : ∀ (l1 l2 : List Char), pathVal l1 = pathVal l2 → l1 = l2 := by
  intro l1
  induction l1 using List.reverseRecOn with
  | nil =>
    intro l2
    induction l2 using List.reverseRecOn with
    | nil => intro _; rfl
    | append_singleton l2 c _ =>
      intro h
      rw [pathVal_concat] at h
      simp [pathVal] at h
  | append_singleton l1 c ih =>
    intro l2
    induction l2 using List.reverseRecOn with
    | nil =>
      intro h
      rw [pathVal_concat] at h
      simp [pathVal] at h
    | append_singleton l2 c2 _ =>
      intro h
      rw [pathVal_concat, pathVal_concat] at h
      have h2 : Nat.pair (pathVal l1) c.toNat = Nat.pair (pathVal l2) c2.toNat := by omega
      rw [Nat.pair_eq_pair] at h2
      rw [ih l2 h2.1, char_toNat_inj h2.2]

theorem getPHash_inj {s t : String} (h : getPHash s = getPHash t) : s = t := by
  unfold getPHash at h
  by_cases hs : s = "" <;> by_cases ht : t = "" <;> simp [hs, ht] at h ⊢
  exact String.ext (pathVal_inj _ _ h)

theorem strStartsWith_ne_empty {q t : String} (h : strStartsWith q (t ++ "/") = true) :
    q ≠ "" := by
  intro hq
  subst hq
  unfold strStartsWith at h
  rw [List.isPrefixOf_iff_prefix] at h
  rw [show ("" : String).data = [] from rfl, List.prefix_nil] at h
  rw [String.data_append] at h
  rcases List.append_eq_nil.mp h with ⟨_, h2⟩
  exact absurd h2 (by decide)

/-- The generic round-trip fact behind setFileRecord followed by
getFileRecord on the same path: the stored row is found again, uid and gid
come back as zero, and the etag is the one selected by the invalidation
filter. -/
theorem setFileRecord_roundtrip_aux (j : JournalState) (r : SyncJournalFileRecord) :
    SyncJournalDb.getFileRecord r.path (SyncJournalDb.setFileRecord r j) =
      { r with
        uid := 0
        gid := 0
        etag :=
          if j.avoidReadFromDbOnNextSyncFilter.any (fun it => strStartsWith it (r.path ++ "/"))
          then "_invalid_" else r.etag } := by
  unfold SyncJournalDb.setFileRecord SyncJournalDb.getFileRecord
  by_cases h : j.avoidReadFromDbOnNextSyncFilter.any (fun it => strStartsWith it (r.path ++ "/")) = true <;>
    simp [h, List.find?_cons]

/-- Claim C1: for every path p and every file record r with r.path = p,
setFileRecord(r) followed by getFileRecord(p) returns a record equal to r
except that uid and gid are always 0 and the stored etag may have been
substituted ("_invalid_") by the invalidation filter. -/
theorem claim_C1_set_get_roundtrip (j : JournalState) (r : SyncJournalFileRecord) :
    SyncJournalDb.getFileRecord r.path (SyncJournalDb.setFileRecord r j) =
      { r with
        uid := 0
        gid := 0
        etag :=
          if j.avoidReadFromDbOnNextSyncFilter.any (fun it => strStartsWith it (r.path ++ "/"))
          then "_invalid_" else r.etag } :=
  setFileRecord_roundtrip_aux j r

/-- Claim C2, counterexample: after avoidReadFromDbOnNextSync("a"), a
setFileRecord whose record path "a/b" starts with "a" ++ "/" stores the
record's own etag "E", not "_invalid_" (the filter fires for ancestors of
the avoided path, not for its descendants). -/
theorem claim_C2_counterexample :
    (SyncJournalDb.getFileRecord "a/b"
        (SyncJournalDb.setFileRecord { path := "a/b", etag := "E" }
          (SyncJournalDb.avoidReadFromDbOnNextSync "a" {}))).etag = "E" ∧
    ("E" : String) ≠ "_invalid_" := by
  constructor
  · decide
  · decide

/-- Claim C2, amended: after avoidReadFromDbOnNextSync(p) on a journal with
an empty filter set, a subsequent setFileRecord(r) stores the etag
"_invalid_" exactly when p starts with r.path ++ "/" (the record is a proper
ancestor directory of the filter-set member p); otherwise the record's own
etag is stored; and after close() clears the filter set the record's own
etag is stored again. -/
theorem claim_C2_amended (j : JournalState) (p : String) (r : SyncJournalFileRecord)
    (hf : j.avoidReadFromDbOnNextSyncFilter = []) :
    (strStartsWith p (r.path ++ "/") = true →
      (SyncJournalDb.getFileRecord r.path
        (SyncJournalDb.setFileRecord r
          (SyncJournalDb.avoidReadFromDbOnNextSync p j))).etag = "_invalid_") ∧
    (strStartsWith p (r.path ++ "/") = false →
      (SyncJournalDb.getFileRecord r.path
        (SyncJournalDb.setFileRecord r
          (SyncJournalDb.avoidReadFromDbOnNextSync p j))).etag = r.etag) ∧
    (SyncJournalDb.getFileRecord r.path
        (SyncJournalDb.setFileRecord r
          (SyncJournalDb.close (SyncJournalDb.avoidReadFromDbOnNextSync p j)))).etag = r.etag := by
  refine ⟨?_, ?_, ?_⟩
  · intro h
    rw [setFileRecord_roundtrip_aux]
    simp [SyncJournalDb.avoidReadFromDbOnNextSync, hf, h]
  · intro h
    rw [setFileRecord_roundtrip_aux]
    simp [SyncJournalDb.avoidReadFromDbOnNextSync, hf, h]
  · rw [setFileRecord_roundtrip_aux]
    simp [SyncJournalDb.close, SyncJournalDb.commitTransaction]

/-- Witness for the amended claim C2 at a concrete input: the journal is
fresh, the avoided path is "a/b/c" and the record path "a/b" is one of its
ancestor directories. -/
theorem claim_C2_amended_witness :
    (({} : JournalState).avoidReadFromDbOnNextSyncFilter = []) ∧
    ((strStartsWith "a/b/c" ("a/b" ++ "/") = true →
      (SyncJournalDb.getFileRecord "a/b"
        (SyncJournalDb.setFileRecord { path := "a/b", etag := "E" }
          (SyncJournalDb.avoidReadFromDbOnNextSync "a/b/c" {}))).etag = "_invalid_") ∧
    (strStartsWith "a/b/c" ("a/b" ++ "/") = false →
      (SyncJournalDb.getFileRecord "a/b"
        (SyncJournalDb.setFileRecord { path := "a/b", etag := "E" }
          (SyncJournalDb.avoidReadFromDbOnNextSync "a/b/c" {}))).etag = "E") ∧
    (SyncJournalDb.getFileRecord "a/b"
        (SyncJournalDb.setFileRecord { path := "a/b", etag := "E" }
          (SyncJournalDb.close (SyncJournalDb.avoidReadFromDbOnNextSync "a/b/c" {})))).etag = "E") :=
  ⟨rfl, claim_C2_amended {} "a/b/c" { path := "a/b", etag := "E" } rfl⟩

/-- getFileRecord returns the default record when no row carries the hash of
the looked-up path. -/
theorem getFileRecord_eq_default (filename : String) (j : JournalState)
    (h : ∀ row ∈ j.metadata, row.phash ≠ getPHash filename) :
    SyncJournalDb.getFileRecord filename j = {} := by
  unfold SyncJournalDb.getFileRecord
  have hnone : j.metadata.find? (fun row => row.phash == getPHash filename) = none := by
    rw [List.find?_eq_none]
    intro x hx hbeq
    exact h x hx (beq_iff_eq.mp hbeq)
  simp [hnone]

/-- Claim C6: after deleteFileRecord(p, true), getFileRecord(q) returns the
empty (default) record for q = p and for every q that starts with p ++ "/",
on any journal whose rows are keyed by the hash of their own path. -/
theorem claim_C6_delete_recursive (j : JournalState) (p q : String)
    (hwf : wfJournal j)
    (hq : q = p ∨ strStartsWith q (p ++ "/") = true) :
    SyncJournalDb.getFileRecord q (SyncJournalDb.deleteFileRecord p true j) = {} := by
  apply getFileRecord_eq_default
  intro row hrow
  have hmeta : (SyncJournalDb.deleteFileRecord p true j).metadata =
      (j.metadata.filter fun r => !(r.phash == getPHash p)).filter
        (fun r => !(strStartsWith r.path (p ++ "/"))) := by
    simp [SyncJournalDb.deleteFileRecord]
  rw [hmeta, List.mem_filter, List.mem_filter] at hrow
  obtain ⟨⟨hmem, h1⟩, h2⟩ := hrow
  intro heq
  have hwfrow := hwf row hmem
  rcases hq with rfl | hpre
  · rw [heq] at h1
    simp at h1
  · have hpath : row.path = q := getPHash_inj (hwfrow ▸ heq)
    rw [hpath] at h2
    rw [hpre] at h2
    simp at h2

/-- Witness for claim C6 at a concrete input: a journal holding the single
row for "d/x", with p = "d" and q = "d/x". -/
theorem claim_C6_delete_recursive_witness :
    wfJournal
      { metadata := [{ phash := getPHash "d/x", pathlen := 3, path := "d/x", inode := 7,
                       uid := 0, gid := 0, mode := 0, modtime := 5, type := 0, md5 := "T",
                       fileid := "", remotePerm := "", filesize := 9 }] } ∧
    (("d/x" : String) = "d" ∨ strStartsWith "d/x" ("d" ++ "/") = true) ∧
    SyncJournalDb.getFileRecord "d/x"
      (SyncJournalDb.deleteFileRecord "d" true
        { metadata := [{ phash := getPHash "d/x", pathlen := 3, path := "d/x", inode := 7,
                         uid := 0, gid := 0, mode := 0, modtime := 5, type := 0, md5 := "T",
                         fileid := "", remotePerm := "", filesize := 9 }] }) = {} :=
  ⟨by unfold wfJournal; decide, by decide,
   claim_C6_delete_recursive _ "d" "d/x" (by unfold wfJournal; decide) (by decide)⟩

/-- Claim C9: the transaction counter stays in the two-element range and the
transaction operations preserve it; startTransaction with an open
transaction and commitTransaction with no open transaction both leave the
state unchanged. -/
theorem claim_C9_transaction_counter (j : JournalState)
    (h : j.transaction = 0 ∨ j.transaction = 1) :
    ((SyncJournalDb.startTransaction j).transaction = 0 ∨
      (SyncJournalDb.startTransaction j).transaction = 1) ∧
    ((SyncJournalDb.commitTransaction j).transaction = 0 ∨
      (SyncJournalDb.commitTransaction j).transaction = 1) ∧
    (∀ b : Bool, (SyncJournalDb.commitInternal b j).transaction = 0 ∨
      (SyncJournalDb.commitInternal b j).transaction = 1) ∧
    ((SyncJournalDb.commitIfNeededAndStartNewTransaction j).transaction = 0 ∨
      (SyncJournalDb.commitIfNeededAndStartNewTransaction j).transaction = 1) ∧
    (j.transaction = 1 → SyncJournalDb.startTransaction j = j) ∧
    (j.transaction = 0 → SyncJournalDb.commitTransaction j = j) := by
  refine ⟨?_, ?_, ?_, ?_, ?_, ?_⟩ <;>
    first
    | (intro b
       rcases h with h | h <;>
         cases b <;>
           simp [SyncJournalDb.commitInternal, SyncJournalDb.commitTransaction,
             SyncJournalDb.startTransaction, h])
    | (intro hx
       rcases h with h | h <;>
         simp [SyncJournalDb.startTransaction, SyncJournalDb.commitTransaction, h] <;>
           omega)
    | (rcases h with h | h <;>
        simp [SyncJournalDb.startTransaction, SyncJournalDb.commitTransaction,
          SyncJournalDb.commitInternal, SyncJournalDb.commitIfNeededAndStartNewTransaction, h])

/-- Witness for claim C9 at the fresh journal (counter 0). -/
theorem claim_C9_transaction_counter_witness :
    ((({} : JournalState).transaction = 0 ∨ ({} : JournalState).transaction = 1)) ∧
    (((SyncJournalDb.startTransaction {}).transaction = 0 ∨
        (SyncJournalDb.startTransaction {}).transaction = 1) ∧
      ((SyncJournalDb.commitTransaction {}).transaction = 0 ∨
        (SyncJournalDb.commitTransaction {}).transaction = 1) ∧
      (∀ b : Bool, (SyncJournalDb.commitInternal b ({} : JournalState)).transaction = 0 ∨
        (SyncJournalDb.commitInternal b ({} : JournalState)).transaction = 1) ∧
      ((SyncJournalDb.commitIfNeededAndStartNewTransaction {}).transaction = 0 ∨
        (SyncJournalDb.commitIfNeededAndStartNewTransaction {}).transaction = 1) ∧
      (({} : JournalState).transaction = 1 → SyncJournalDb.startTransaction {} = {}) ∧
      (({} : JournalState).transaction = 0 → SyncJournalDb.commitTransaction {} = {})) :=
  ⟨Or.inl rfl, claim_C9_transaction_counter {} (Or.inl rfl)⟩

/-- Claim C10: blacklistEntry("") returns the default (unset) record on any
journal, and wipeBlacklistEntry("") leaves any journal unchanged. -/
theorem claim_C10_blacklist_empty_path (j : JournalState) :
    SyncJournalDb.blacklistEntry "" j = {} ∧
    SyncJournalDb.wipeBlacklistEntry "" j = j := by
  constructor <;> simp [SyncJournalDb.blacklistEntry, SyncJournalDb.wipeBlacklistEntry]

/-- Validity of a recomputed blacklist entry depends only on the item's path
and the current time (the other refreshed fields do not enter isValid). -/
theorem update_isValid (old : SyncJournalBlacklistRecord) (i : SyncFileItem) (now : Nat) :
    (old.update i now).isValid = (!(i.file == "") && decide (0 < now)) := by
  simp [SyncJournalBlacklistRecord.update, SyncJournalBlacklistRecord.isValid]

/-- The recomputed ignore window depends only on the stored entry. -/
theorem update_ignoreDuration (old : SyncJournalBlacklistRecord) (i : SyncFileItem) (now : Nat) :
    (old.update i now).ignoreDuration =
      min (if old.ignoreDuration = 0 then baseBlacklistTime else old.ignoreDuration * 2)
        maxBlacklistTime := rfl

/-- The suppression verdict of blacklistCheck only depends on the item's
path (through the stored entry and the refreshed fields that enter
isValid). -/
theorem blacklistCheck_fst_congr (j : JournalState) {i i2 : SyncFileItem} (now : Nat)
    (hfile : i2.file = i.file) :
    (blacklistCheck j i2 now).1 = (blacklistCheck j i now).1 := by
  simp [blacklistCheck, update_isValid, update_ignoreDuration, hfile]

/-- The suppression verdict of blacklistCheck, spelled out. -/
theorem blacklistCheck_fst_iff (j : JournalState) (i : SyncFileItem) (now : Nat) :
    (blacklistCheck j i now).1 = true ↔
      (((SyncJournalDb.blacklistEntry i.file j).update i now).isValid = true ∧
        0 < ((SyncJournalDb.blacklistEntry i.file j).update i now).ignoreDuration) := by
  simp [blacklistCheck]

/-- The restoration step does not change an error status. -/
theorem doneRestorationStep_fst (item : SyncFileItem) (st : Status) (es : String)
    (h1 : st ≠ .Success) (h2 : st ≠ .Conflict) :
    (PropagateItemJob.doneRestorationStep item st es).1 = st := by
  unfold PropagateItemJob.doneRestorationStep
  by_cases hr : item.isRestoration = true <;> simp [hr, h1, h2]

/-- The restoration step only touches the item's error string. -/
theorem doneRestorationStep_flags (item : SyncFileItem) (st : Status) (es : String) :
    (PropagateItemJob.doneRestorationStep item st es).2.file = item.file ∧
    (PropagateItemJob.doneRestorationStep item st es).2.errorMayBeBlacklisted =
      item.errorMayBeBlacklisted ∧
    (PropagateItemJob.doneRestorationStep item st es).2.hasBlacklistEntry =
      item.hasBlacklistEntry := by
  unfold PropagateItemJob.doneRestorationStep
  by_cases hr : item.isRestoration = true <;>
    by_cases hc : st = .Success ∨ st = .Conflict <;>
      by_cases he : item.errorString = "" <;>
        simp [hr, hc, he]

/-- Without an abort request the downgrade step is the identity. -/
theorem doneAbortStep_false (st : Status) :
    PropagateItemJob.doneAbortStep false st = st := by
  simp [PropagateItemJob.doneAbortStep]

/-- With an abort request, NormalError and FatalError become SoftError. -/
theorem doneAbortStep_true_error (st : Status)
    (h : st = .NormalError ∨ st = .FatalError) :
    PropagateItemJob.doneAbortStep true st = .SoftError := by
  rcases h with rfl | rfl <;> simp [PropagateItemJob.doneAbortStep]

/-- With an abort request the downgrade step never outputs NormalError or
FatalError. -/
theorem doneAbortStep_true_ne (st : Status) :
    PropagateItemJob.doneAbortStep true st ≠ .NormalError ∧
    PropagateItemJob.doneAbortStep true st ≠ .FatalError := by
  rcases st <;> simp [PropagateItemJob.doneAbortStep]

/-- Status of the switch step on an error status: FileIgnored under the
suppression condition, the incoming status otherwise. -/
theorem doneStatusSwitch_fst_error (j : JournalState) (i : SyncFileItem) (st : Status)
    (now : Nat) (hst : st = .SoftError ∨ st = .NormalError ∨ st = .FatalError) :
    (PropagateItemJob.doneStatusSwitch j i st now).1 =
      if (st = .NormalError ∨ i.errorMayBeBlacklisted = true) ∧
         ((blacklistCheck j i now).1 = true ∧ i.hasBlacklistEntry = true)
      then .FileIgnored else st := by
  rcases hst with rfl | rfl | rfl <;>
    (unfold PropagateItemJob.doneStatusSwitch
     by_cases hmb : i.errorMayBeBlacklisted = true <;>
       by_cases hbc : (blacklistCheck j i now).1 = true <;>
         by_cases hhb : i.hasBlacklistEntry = true <;>
           simp [hmb, hbc, hhb])

/-- The error string produced by the switch step when suppression fires. -/
theorem doneStatusSwitch_errorString (j : JournalState) (i : SyncFileItem) (st : Status)
    (now : Nat) (hst : st = .SoftError ∨ st = .NormalError ∨ st = .FatalError)
    (houter : st = .NormalError ∨ i.errorMayBeBlacklisted = true)
    (hbc : (blacklistCheck j i now).1 = true) (hhb : i.hasBlacklistEntry = true) :
    (PropagateItemJob.doneStatusSwitch j i st now).2.1.errorString =
      "Continue blacklisting: " ++ i.errorString := by
  rcases hst with rfl | rfl | rfl <;>
    unfold PropagateItemJob.doneStatusSwitch <;>
      rcases houter with h | h <;>
        first
        | exact absurd h (by decide)
        | simp [h, hbc, hhb]

/-- The switch step either keeps the status or turns it into FileIgnored. -/
theorem doneStatusSwitch_fst_cases (j : JournalState) (i : SyncFileItem) (st : Status)
    (now : Nat) :
    (PropagateItemJob.doneStatusSwitch j i st now).1 = st ∨
    (PropagateItemJob.doneStatusSwitch j i st now).1 = .FileIgnored := by
  rcases st <;>
    (unfold PropagateItemJob.doneStatusSwitch
     by_cases hmb : i.errorMayBeBlacklisted = true <;>
       by_cases hbc : (blacklistCheck j i now).1 = true <;>
         by_cases hhb : i.hasBlacklistEntry = true <;>
           simp [hmb, hbc, hhb])

/-- The terminal status of done, through its three steps. -/
theorem done_status_eq (ab : Bool) (j : JournalState) (item : SyncFileItem)
    (st : Status) (es : String) (now : Nat) :
    (PropagateItemJob.done ab j item st es now).status =
      (PropagateItemJob.doneStatusSwitch j (PropagateItemJob.doneRestorationStep item st es).2
        (PropagateItemJob.doneAbortStep ab (PropagateItemJob.doneRestorationStep item st es).1)
        now).1 := rfl

/-- The error string done leaves on the item, through its three steps. -/
theorem done_item_errorString_eq (ab : Bool) (j : JournalState) (item : SyncFileItem)
    (st : Status) (es : String) (now : Nat) :
    (PropagateItemJob.done ab j item st es now).item.errorString =
      (PropagateItemJob.doneStatusSwitch j (PropagateItemJob.doneRestorationStep item st es).2
        (PropagateItemJob.doneAbortStep ab (PropagateItemJob.doneRestorationStep item st es).1)
        now).2.1.errorString := rfl

/-- Claim C4: with no abort ongoing, a leaf completing with SoftError,
NormalError or FatalError is downgraded to FileIgnored exactly when the item
was already blacklisted and the recomputed blacklist entry is still valid
with a positive ignoreDuration (and, for the non-NormalError statuses, the
item's errorMayBeBlacklisted flag is set); in that case the item's error
string is prefixed with "Continue blacklisting:". -/
theorem claim_C4_blacklist_suppression (j : JournalState) (item : SyncFileItem)
    (st : Status) (es : String) (now : Nat)
    (hst : st = .SoftError ∨ st = .NormalError ∨ st = .FatalError) :
    ((PropagateItemJob.done false j item st es now).status = .FileIgnored ↔
      (item.hasBlacklistEntry = true ∧
       ((SyncJournalDb.blacklistEntry item.file j).update item now).isValid = true ∧
       ((SyncJournalDb.blacklistEntry item.file j).update item now).ignoreDuration > 0 ∧
       (st = .NormalError ∨ item.errorMayBeBlacklisted = true))) ∧
    ((PropagateItemJob.done false j item st es now).status = .FileIgnored →
      ∃ rest, (PropagateItemJob.done false j item st es now).item.errorString =
        "Continue blacklisting: " ++ rest) := by
  have hne1 : st ≠ .Success := by rcases hst with rfl | rfl | rfl <;> decide
  have hne2 : st ≠ .Conflict := by rcases hst with rfl | rfl | rfl <;> decide
  have hnefi : st ≠ .FileIgnored := by rcases hst with rfl | rfl | rfl <;> decide
  have hrs := doneRestorationStep_fst item st es hne1 hne2
  obtain ⟨hfile, hmb, hhb⟩ := doneRestorationStep_flags item st es
  have hstat :
      (PropagateItemJob.done false j item st es now).status =
        if (st = .NormalError ∨ item.errorMayBeBlacklisted = true) ∧
           ((blacklistCheck j item now).1 = true ∧ item.hasBlacklistEntry = true)
        then .FileIgnored else st := by
    rw [done_status_eq, hrs, doneAbortStep_false,
      doneStatusSwitch_fst_error j _ st now hst,
      blacklistCheck_fst_congr j now hfile, hmb, hhb]
  constructor
  · rw [hstat]
    by_cases hcond : (st = .NormalError ∨ item.errorMayBeBlacklisted = true) ∧
        ((blacklistCheck j item now).1 = true ∧ item.hasBlacklistEntry = true)
    · rw [if_pos hcond]
      have hv := (blacklistCheck_fst_iff j item now).mp hcond.2.1
      exact iff_of_true rfl ⟨hcond.2.2, hv.1, hv.2, hcond.1⟩
    · rw [if_neg hcond]
      apply iff_of_false hnefi
      rintro ⟨ha, hb, hc, hd⟩
      exact hcond ⟨hd, (blacklistCheck_fst_iff j item now).mpr ⟨hb, hc⟩, ha⟩
  · intro hFI
    rw [hstat] at hFI
    have hcond : (st = .NormalError ∨ item.errorMayBeBlacklisted = true) ∧
        ((blacklistCheck j item now).1 = true ∧ item.hasBlacklistEntry = true) := by
      by_contra hc
      rw [if_neg hc] at hFI
      exact hnefi hFI
    rw [done_item_errorString_eq, hrs, doneAbortStep_false,
      doneStatusSwitch_errorString j _ st now hst
        (by rw [hmb]; exact hcond.1)
        (by rw [blacklistCheck_fst_congr j now hfile]; exact hcond.2.1)
        (by rw [hhb]; exact hcond.2.2)]
    exact ⟨(PropagateItemJob.doneRestorationStep item st es).2.errorString, rfl⟩

/-- Witness for claim C4 at a concrete input: an already-blacklisted item
failing with NormalError on a fresh journal at time 5, which is suppressed
to FileIgnored. -/
theorem claim_C4_blacklist_suppression_witness :
    ((Status.NormalError = Status.SoftError ∨ Status.NormalError = Status.NormalError ∨
        Status.NormalError = Status.FatalError)) ∧
    (((PropagateItemJob.done false {}
          { file := "f", hasBlacklistEntry := true } .NormalError "boom" 5).status = .FileIgnored ↔
      (({ file := "f", hasBlacklistEntry := true } : SyncFileItem).hasBlacklistEntry = true ∧
       ((SyncJournalDb.blacklistEntry ({ file := "f", hasBlacklistEntry := true } : SyncFileItem).file
            {}).update { file := "f", hasBlacklistEntry := true } 5).isValid = true ∧
       ((SyncJournalDb.blacklistEntry ({ file := "f", hasBlacklistEntry := true } : SyncFileItem).file
            {}).update { file := "f", hasBlacklistEntry := true } 5).ignoreDuration > 0 ∧
       (Status.NormalError = Status.NormalError ∨
        ({ file := "f", hasBlacklistEntry := true } : SyncFileItem).errorMayBeBlacklisted = true))) ∧
    ((PropagateItemJob.done false {}
          { file := "f", hasBlacklistEntry := true } .NormalError "boom" 5).status = .FileIgnored →
      ∃ rest, (PropagateItemJob.done false {}
          { file := "f", hasBlacklistEntry := true } .NormalError "boom" 5).item.errorString =
        "Continue blacklisting: " ++ rest)) :=
  ⟨Or.inr (Or.inl rfl),
   claim_C4_blacklist_suppression {} { file := "f", hasBlacklistEntry := true }
     .NormalError "boom" 5 (Or.inr (Or.inl rfl))⟩

/-- Claim C7, counterexample: with the abort flag set, a NormalError
completion of an already-blacklisted item with errorMayBeBlacklisted set is
reported as FileIgnored (blacklist suppression fires after the downgrade),
not as SoftError as the claim states. -/
theorem claim_C7_counterexample :
    (PropagateItemJob.done true {}
        { file := "f", hasBlacklistEntry := true, errorMayBeBlacklisted := true }
        .NormalError "boom" 5).status = .FileIgnored ∧
    Status.FileIgnored ≠ Status.SoftError := by
  constructor
  · decide
  · decide

/-- Claim C7, amended: once the abort flag is set, a completion whose status
would be NormalError or FatalError is first downgraded to SoftError and is
reported as SoftError unless blacklist suppression further converts it to
FileIgnored (which needs errorMayBeBlacklisted, a valid recomputed entry
with positive ignoreDuration, and the existing-blacklist flag); in
particular no completion whatsoever is recorded as NormalError or FatalError
after abort. -/
theorem claim_C7_abort_downgrade (j : JournalState) (item : SyncFileItem)
    (st : Status) (es : String) (now : Nat)
    (hst : st = .NormalError ∨ st = .FatalError) :
    ((PropagateItemJob.done true j item st es now).status = .SoftError ∨
     (PropagateItemJob.done true j item st es now).status = .FileIgnored) ∧
    ((PropagateItemJob.done true j item st es now).status = .FileIgnored ↔
      (item.errorMayBeBlacklisted = true ∧
       ((SyncJournalDb.blacklistEntry item.file j).update item now).isValid = true ∧
       ((SyncJournalDb.blacklistEntry item.file j).update item now).ignoreDuration > 0 ∧
       item.hasBlacklistEntry = true)) ∧
    (∀ st2 : Status,
      (PropagateItemJob.done true j item st2 es now).status ≠ .NormalError ∧
      (PropagateItemJob.done true j item st2 es now).status ≠ .FatalError) := by
  have hne1 : st ≠ .Success := by rcases hst with rfl | rfl <;> decide
  have hne2 : st ≠ .Conflict := by rcases hst with rfl | rfl <;> decide
  have hrs := doneRestorationStep_fst item st es hne1 hne2
  obtain ⟨hfile, hmb, hhb⟩ := doneRestorationStep_flags item st es
  have hsoft : Status.SoftError = .SoftError ∨ Status.SoftError = .NormalError ∨
      Status.SoftError = .FatalError := Or.inl rfl
  have hstat :
      (PropagateItemJob.done true j item st es now).status =
        if (Status.SoftError = .NormalError ∨ item.errorMayBeBlacklisted = true) ∧
           ((blacklistCheck j item now).1 = true ∧ item.hasBlacklistEntry = true)
        then .FileIgnored else .SoftError := by
    rw [done_status_eq, hrs, doneAbortStep_true_error st hst,
      doneStatusSwitch_fst_error j _ .SoftError now hsoft,
      blacklistCheck_fst_congr j now hfile, hmb, hhb]
  refine ⟨?_, ?_, ?_⟩
  · rw [hstat]
    by_cases hcond : (Status.SoftError = .NormalError ∨ item.errorMayBeBlacklisted = true) ∧
        ((blacklistCheck j item now).1 = true ∧ item.hasBlacklistEntry = true)
    · rw [if_pos hcond]
      exact Or.inr rfl
    · rw [if_neg hcond]
      exact Or.inl rfl
  · rw [hstat]
    by_cases hcond : (Status.SoftError = .NormalError ∨ item.errorMayBeBlacklisted = true) ∧
        ((blacklistCheck j item now).1 = true ∧ item.hasBlacklistEntry = true)
    · rw [if_pos hcond]
      have hv := (blacklistCheck_fst_iff j item now).mp hcond.2.1
      have hob : item.errorMayBeBlacklisted = true := by
        rcases hcond.1 with h | h
        · exact absurd h (by decide)
        · exact h
      exact iff_of_true rfl ⟨hob, hv.1, hv.2, hcond.2.2⟩
    · rw [if_neg hcond]
      apply iff_of_false (by decide)
      rintro ⟨ha, hb, hc, hd⟩
      exact hcond ⟨Or.inr ha, (blacklistCheck_fst_iff j item now).mpr ⟨hb, hc⟩, hd⟩
  · intro st2
    have hcases := doneStatusSwitch_fst_cases j
      (PropagateItemJob.doneRestorationStep item st2 es).2
      (PropagateItemJob.doneAbortStep true (PropagateItemJob.doneRestorationStep item st2 es).1)
      now
    have hab := doneAbortStep_true_ne (PropagateItemJob.doneRestorationStep item st2 es).1
    constructor
    · rw [done_status_eq]
      rcases hcases with h | h <;> rw [h]
      · exact hab.1
      · decide
    · rw [done_status_eq]
      rcases hcases with h | h <;> rw [h]
      · exact hab.2
      · decide

/-- Witness for the amended claim C7 at a concrete input: a FatalError
completion of a plain item on a fresh journal while abort is ongoing. -/
theorem claim_C7_abort_downgrade_witness :
    ((Status.FatalError = Status.NormalError ∨ Status.FatalError = Status.FatalError)) ∧
    (((PropagateItemJob.done true {} { file := "g" } .FatalError "x" 3).status = .SoftError ∨
      (PropagateItemJob.done true {} { file := "g" } .FatalError "x" 3).status = .FileIgnored) ∧
     ((PropagateItemJob.done true {} { file := "g" } .FatalError "x" 3).status = .FileIgnored ↔
       (({ file := "g" } : SyncFileItem).errorMayBeBlacklisted = true ∧
        ((SyncJournalDb.blacklistEntry ({ file := "g" } : SyncFileItem).file {}).update
            { file := "g" } 3).isValid = true ∧
        ((SyncJournalDb.blacklistEntry ({ file := "g" } : SyncFileItem).file {}).update
            { file := "g" } 3).ignoreDuration > 0 ∧
        ({ file := "g" } : SyncFileItem).hasBlacklistEntry = true)) ∧
     (∀ st2 : Status,
       (PropagateItemJob.done true {} { file := "g" } st2 "x" 3).status ≠ .NormalError ∧
       (PropagateItemJob.done true {} { file := "g" } st2 "x" 3).status ≠ .FatalError)) :=
  ⟨Or.inr rfl,
   claim_C7_abort_downgrade {} { file := "g" } .FatalError "x" 3 (Or.inr rfl)⟩

/-- The foldl of the slotSubJobFinished error update computes the last error
status of the children, with the accumulator as fallback. -/
theorem foldl_updateHasError (l : List Status) (a : Status) :
    l.foldl updateHasError a =
      (match (l.filter isErrorStatus).getLast? with
       | some e => e
       | none => a) := by
  induction l generalizing a with
  | nil => rfl
  | cons h t ih =>
    rw [List.foldl_cons, ih]
    by_cases he : isErrorStatus h = true
    · rw [List.filter_cons_of_pos he]
      cases hft : t.filter isErrorStatus with
      | nil => simp [hft, updateHasError, he]
      | cons x xs =>
        simp only [hft, List.getLast?_cons_cons,
          List.getLast?_eq_getLast_of_ne_nil (List.cons_ne_nil x xs)]
    · rw [List.filter_cons_of_neg (by simpa using he)]
      have : updateHasError a h = a := by
        simp [updateHasError, he]
      rw [this]

/-- Claim C5, counterexample: a child sequence FatalError then SoftError
makes the composite emit SoftError (the last error seen), while the most
severe non-success status among the children is FatalError. -/
theorem claim_C5_counterexample :
    compositeEmittedStatus [.FatalError, .SoftError] = .SoftError ∧
    mostSevereStatus [.FatalError, .SoftError] = .FatalError ∧
    Status.SoftError ≠ Status.FatalError := by
  refine ⟨rfl, rfl, by decide⟩

/-- Claim C5, amended: for every sequence of child completions, the status
the composite emits on finishing equals the most recently seen non-success
status (FatalError, NormalError or SoftError) among its children, or Success
if no child reported an error. -/
theorem claim_C5_amended (children : List Status) :
    compositeEmittedStatus children = lastErrorStatus children := by
  unfold compositeEmittedStatus lastErrorStatus
  rw [foldl_updateHasError]
  cases hft : (children.filter isErrorStatus).getLast? with
  | none => rfl
  | some e =>
    have hmem : e ∈ children.filter isErrorStatus := by
      obtain ⟨hne, heq⟩ :=
        List.mem_getLast?_eq_getLast (show e ∈ _ from Option.mem_def.mpr hft)
      rw [heq]
      exact List.getLast_mem hne
    have he : isErrorStatus e = true := (List.mem_filter.mp hmem).2
    rcases e <;> first | rfl | simp [isErrorStatus] at he

end OCC

namespace Mirall

/-- Claim C8, evaluation of the code at the failing input: a same-scheme,
non-loop redirect with the hop budget not exhausted is not followed either —
the reply is discarded and no new request is issued, because the re-issue
call is commented out in CheckServerJob::slotFinished. -/
theorem claim_C8_redirect_never_reissued :
    (CheckServerJob.slotFinishedRedirect
        { scheme := "https", hostPath := "a/status.php" }
        { scheme := "https", hostPath := "b/status.php" } 0).1 =
      RedirectHandling.replyDiscardedNoNewRequest := by
  decide

end Mirall

/-! Lemmas for the job-tree shape claim: the walk preserves, frame for frame
and slot for slot, the number of leaf-level and directory jobs it has
created. -/

namespace OCC

open OwncloudPropagator

theorem leafCountList_cons (j : PJob) (js : List PJob) :
    PJob.leafCountList (j :: js) = j.leafCount + PJob.leafCountList js := rfl

theorem dirCountList_cons (j : PJob) (js : List PJob) :
    PJob.dirCountList (j :: js) = j.dirCount + PJob.dirCountList js := rfl

theorem leafCountList_append (l1 l2 : List PJob) :
    PJob.leafCountList (l1 ++ l2) = PJob.leafCountList l1 + PJob.leafCountList l2 := by
  induction l1 with
  | nil => simp [PJob.leafCountList]
  | cons j js ih =>
    rw [List.cons_append, leafCountList_cons, leafCountList_cons, ih, Nat.add_assoc]

theorem dirCountList_append (l1 l2 : List PJob) :
    PJob.dirCountList (l1 ++ l2) = PJob.dirCountList l1 + PJob.dirCountList l2 := by
  induction l1 with
  | nil => simp [PJob.dirCountList]
  | cons j js ih =>
    rw [List.cons_append, dirCountList_cons, dirCountList_cons, ih, Nat.add_assoc]

theorem leafCount_frameToJob (f : DirFrame) : (frameToJob f).leafCount = frameLeaf f := by
  simp [frameToJob, PJob.leafCount, frameLeaf]

theorem dirCount_frameToJob (f : DirFrame) : (frameToJob f).dirCount = frameDir f := by
  simp [frameToJob, PJob.dirCount, frameDir]

theorem pendingIds_cons_pending (n : Nat) (rest : List RSlot) :
    pendingIds (.pending n :: rest) = n :: pendingIds rest := by
  simp [pendingIds, List.filterMap_cons]

theorem pendingIds_cons_job (j : PJob) (rest : List RSlot) :
    pendingIds (.job j :: rest) = pendingIds rest := by
  simp [pendingIds, List.filterMap_cons]

theorem removeIds_cons_remove (f p : DirFrame) (b : List DirFrame) (h : f.isRemove = true) :
    removeIds f (p :: b) = f.slotId :: removeIds p b := by
  simp [removeIds, List.filterMap_cons, h]

theorem removeIds_cons_normal (f p : DirFrame) (b : List DirFrame) (h : f.isRemove = false) :
    removeIds f (p :: b) = removeIds p b := by
  simp [removeIds, List.filterMap_cons, h]

theorem removeIds_congr (f g : DirFrame) (b b2 : List DirFrame)
    (hf : f.isRemove = g.isRemove) (hs : f.slotId = g.slotId) (hb : b = b2) :
    removeIds f b = removeIds g b2 := by
  subst hb
  simp [removeIds, List.filterMap_cons, hf, hs]

theorem fillSlot_cons_job (j0 : PJob) (tail : List RSlot) (id : Nat) (job : PJob) :
    fillSlot (.job j0 :: tail) id job = .job j0 :: fillSlot tail id job := rfl

theorem fillSlot_cons_pending (n : Nat) (tail : List RSlot) (id : Nat) (job : PJob) :
    fillSlot (.pending n :: tail) id job =
      (if n = id then .job job else .pending n) :: fillSlot tail id job := rfl

theorem fillSlot_of_not_mem : ∀ (slots : List RSlot) (id : Nat) (job : PJob),
    id ∉ pendingIds slots → fillSlot slots id job = slots := by
  intro slots id job h
  induction slots with
  | nil => rfl
  | cons sl tail ih =>
    cases sl with
    | job j0 =>
      rw [fillSlot_cons_job, ih (by rwa [pendingIds_cons_job] at h)]
    | pending n =>
      rw [pendingIds_cons_pending] at h
      have hn : ¬(n = id) := fun he => h (he ▸ List.mem_cons_self n _)
      have hr : id ∉ pendingIds tail := fun hm => h (List.mem_cons_of_mem n hm)
      rw [fillSlot_cons_pending, if_neg hn, ih hr]

theorem fillSlot_sums : ∀ (slots : List RSlot) (id : Nat) (job : PJob) (rest : List Nat),
    pendingIds slots = id :: rest → (pendingIds slots).Nodup →
    ((fillSlot slots id job).map slotLeaf).sum = (slots.map slotLeaf).sum + job.leafCount ∧
    ((fillSlot slots id job).map slotDir).sum = (slots.map slotDir).sum + job.dirCount ∧
    pendingIds (fillSlot slots id job) = rest := by
  intro slots id job
  induction slots with
  | nil =>
    intro rest h _
    simp [pendingIds] at h
  | cons sl tail ih =>
    intro rest h hnd
    cases sl with
    | job j0 =>
      rw [pendingIds_cons_job] at h hnd
      obtain ⟨h1, h2, h3⟩ := ih rest h hnd
      refine ⟨?_, ?_, ?_⟩
      · rw [fillSlot_cons_job]
        simp only [List.map_cons, List.sum_cons, h1]
        omega
      · rw [fillSlot_cons_job]
        simp only [List.map_cons, List.sum_cons, h2]
        omega
      · rw [fillSlot_cons_job, pendingIds_cons_job, h3]
    | pending n =>
      rw [pendingIds_cons_pending] at h hnd
      rcases List.cons_eq_cons.mp h with ⟨rfl, hrest⟩
      have hid : n ∉ pendingIds tail := (List.nodup_cons.mp hnd).1
      rw [fillSlot_cons_pending, if_pos rfl, fillSlot_of_not_mem tail n job hid]
      refine ⟨?_, ?_, ?_⟩
      · simp only [List.map_cons, List.sum_cons, slotLeaf]
        omega
      · simp only [List.map_cons, List.sum_cons, slotDir]
        omega
      · rw [pendingIds_cons_job, hrest]

theorem lastFrame_cons (top parent : DirFrame) (rest : List DirFrame) :
    lastFrame top (parent :: rest) = lastFrame parent rest := by
  cases rest with
  | nil => rfl
  | cons x xs =>
    simp [lastFrame, List.getLast?_cons_cons,
      List.getLast?_eq_getLast_of_ne_nil (List.cons_ne_nil x xs)]

theorem lastFrame_isRemove_congr (f g : DirFrame) (below : List DirFrame)
    (h : f.isRemove = g.isRemove) :
    (lastFrame f below).isRemove = (lastFrame g below).isRemove := by
  cases below with
  | nil => exact h
  | cons x xs =>
    simp [lastFrame, List.getLast?_eq_getLast_of_ne_nil (List.cons_ne_nil x xs)]

theorem popInto_parts (f parent : DirFrame) (below : List DirFrame) (slots : List RSlot)
    (nid : Nat) (hinv : partsInv f (parent :: below) slots nid) :
    partsLeaf (popInto f parent slots).1 below (popInto f parent slots).2 =
      partsLeaf f (parent :: below) slots ∧
    partsDir (popInto f parent slots).1 below (popInto f parent slots).2 =
      partsDir f (parent :: below) slots ∧
    partsInv (popInto f parent slots).1 below (popInto f parent slots).2 nid := by
  obtain ⟨hcorr, hnd, hbound, hlast⟩ := hinv
  by_cases hrem : f.isRemove = true
  · have hcorr2 : pendingIds slots = f.slotId :: removeIds parent below := by
      rw [hcorr, removeIds_cons_remove f parent below hrem]
    obtain ⟨hsl, hsd, hsp⟩ := fillSlot_sums slots f.slotId (frameToJob f) _ hcorr2 hnd
    unfold popInto
    rw [if_pos hrem]
    refine ⟨?_, ?_, ?_, ?_, ?_, ?_⟩
    · simp only [partsLeaf, hsl, leafCount_frameToJob, List.map_cons, List.sum_cons]
      omega
    · simp only [partsDir, hsd, dirCount_frameToJob, List.map_cons, List.sum_cons]
      omega
    · exact hsp
    · rw [hsp]
      exact (List.nodup_cons.mp (hcorr2 ▸ hnd)).2
    · intro n hm
      exact hbound n (by rw [hcorr2]; exact List.mem_cons_of_mem _ (hsp ▸ hm))
    · rw [← lastFrame_cons f parent below]
      exact hlast
  · unfold popInto
    rw [if_neg hrem]
    have hrem2 : f.isRemove = false := by
      cases hfr : f.isRemove
      · rfl
      · exact absurd hfr hrem
    refine ⟨?_, ?_, ?_, ?_, ?_, ?_⟩
    · simp only [partsLeaf, frameLeaf, leafCountList_append, PJob.leafCountList,
        leafCount_frameToJob, List.map_cons, List.sum_cons, frameLeaf]
      simp [frameLeaf]
      omega
    · simp only [partsDir, frameDir, dirCountList_append, PJob.dirCountList,
        dirCount_frameToJob, List.map_cons, List.sum_cons, frameDir]
      simp [frameDir]
      omega
    · rw [hcorr, removeIds_cons_normal f parent below hrem2]
      exact removeIds_congr _ _ _ _ rfl rfl rfl
    · exact hnd
    · exact hbound
    · show (lastFrame { parent with jobs := parent.jobs ++ [frameToJob f] } below).isRemove = false
      rw [lastFrame_isRemove_congr { parent with jobs := parent.jobs ++ [frameToJob f] } parent below rfl,
        ← lastFrame_cons f parent below]
      exact hlast

theorem popFrames_nil (dest : String) (top : DirFrame) (slots : List RSlot) :
    popFrames dest top [] slots = (top, [], slots) := rfl

theorem popFrames_cons (dest : String) (top parent : DirFrame) (rest : List DirFrame)
    (slots : List RSlot) :
    popFrames dest top (parent :: rest) slots =
      if strStartsWith dest top.path then (top, parent :: rest, slots)
      else popFrames dest (popInto top parent slots).1 rest (popInto top parent slots).2 := rfl

theorem popFrames_parts : ∀ (below : List DirFrame) (top : DirFrame) (slots : List RSlot)
    (dest : String) (nid : Nat), partsInv top below slots nid →
    partsLeaf (popFrames dest top below slots).1 (popFrames dest top below slots).2.1
        (popFrames dest top below slots).2.2 = partsLeaf top below slots ∧
    partsDir (popFrames dest top below slots).1 (popFrames dest top below slots).2.1
        (popFrames dest top below slots).2.2 = partsDir top below slots ∧
    partsInv (popFrames dest top below slots).1 (popFrames dest top below slots).2.1
        (popFrames dest top below slots).2.2 nid := by
  intro below
  induction below with
  | nil =>
    intro top slots dest nid hinv
    rw [popFrames_nil]
    exact ⟨rfl, rfl, hinv⟩
  | cons parent rest ih =>
    intro top slots dest nid hinv
    rw [popFrames_cons]
    by_cases hsw : strStartsWith dest top.path = true
    · rw [if_pos hsw]
      exact ⟨rfl, rfl, hinv⟩
    · rw [if_neg hsw]
      obtain ⟨h1, h2, h3⟩ := popInto_parts top parent rest slots nid hinv
      obtain ⟨g1, g2, g3⟩ :=
        ih (popInto top parent slots).1 (popInto top parent slots).2 dest nid h3
      exact ⟨g1.trans h1, g2.trans h2, g3⟩

theorem popAllFrames_nil (top : DirFrame) (slots : List RSlot) :
    popAllFrames top [] slots = (top, slots) := rfl

theorem popAllFrames_cons (top parent : DirFrame) (rest : List DirFrame) (slots : List RSlot) :
    popAllFrames top (parent :: rest) slots =
      popAllFrames (popInto top parent slots).1 rest (popInto top parent slots).2 := rfl

theorem popAllFrames_parts : ∀ (below : List DirFrame) (top : DirFrame) (slots : List RSlot)
    (nid : Nat), partsInv top below slots nid →
    partsLeaf (popAllFrames top below slots).1 [] (popAllFrames top below slots).2 =
      partsLeaf top below slots ∧
    partsDir (popAllFrames top below slots).1 [] (popAllFrames top below slots).2 =
      partsDir top below slots ∧
    partsInv (popAllFrames top below slots).1 [] (popAllFrames top below slots).2 nid := by
  intro below
  induction below with
  | nil =>
    intro top slots nid hinv
    rw [popAllFrames_nil]
    exact ⟨rfl, rfl, hinv⟩
  | cons parent rest ih =>
    intro top slots nid hinv
    rw [popAllFrames_cons]
    obtain ⟨h1, h2, h3⟩ := popInto_parts top parent rest slots nid hinv
    obtain ⟨g1, g2, g3⟩ := ih (popInto top parent slots).1 (popInto top parent slots).2 nid h3
    exact ⟨g1.trans h1, g2.trans h2, g3⟩

theorem nullify_isRemove (f : DirFrame) :
    (nullifyUpdateMetadata f).isRemove = f.isRemove := by
  rcases hfi : f.item with _ | it
  · simp [nullifyUpdateMetadata, hfi]
  · simp only [nullifyUpdateMetadata, hfi]
    split <;> rfl

theorem nullify_slotId (f : DirFrame) :
    (nullifyUpdateMetadata f).slotId = f.slotId := by
  rcases hfi : f.item with _ | it
  · simp [nullifyUpdateMetadata, hfi]
  · simp only [nullifyUpdateMetadata, hfi]
    split <;> rfl

theorem nullify_frameLeaf (f : DirFrame) :
    frameLeaf (nullifyUpdateMetadata f) = frameLeaf f := by
  rcases hfi : f.item with _ | it
  · simp [nullifyUpdateMetadata, hfi]
  · simp only [nullifyUpdateMetadata, hfi]
    split <;> rfl

theorem nullify_frameDir (f : DirFrame) :
    frameDir (nullifyUpdateMetadata f) = frameDir f := by
  rcases hfi : f.item with _ | it
  · simp [nullifyUpdateMetadata, hfi]
  · simp only [nullifyUpdateMetadata, hfi]
    split <;> rfl

theorem map_nullify_frameLeaf (l : List DirFrame) :
    (l.map nullifyUpdateMetadata).map frameLeaf = l.map frameLeaf := by
  induction l with
  | nil => rfl
  | cons f fs ih => simp [nullify_frameLeaf, ih]

theorem map_nullify_frameDir (l : List DirFrame) :
    (l.map nullifyUpdateMetadata).map frameDir = l.map frameDir := by
  induction l with
  | nil => rfl
  | cons f fs ih => simp [nullify_frameDir, ih]

theorem filterMap_rid_nullify : ∀ l : List DirFrame,
    (l.map nullifyUpdateMetadata).filterMap
        (fun f => if f.isRemove = true then some f.slotId else none) =
      l.filterMap (fun f => if f.isRemove = true then some f.slotId else none) := by
  intro l
  induction l with
  | nil => rfl
  | cons f fs ih =>
    simp only [List.map_cons, List.filterMap_cons, nullify_isRemove, nullify_slotId, ih]

theorem removeIds_nullify (top : DirFrame) (below : List DirFrame) :
    removeIds (nullifyUpdateMetadata top) (below.map nullifyUpdateMetadata) =
      removeIds top below := by
  unfold removeIds
  rw [← List.map_cons]
  exact filterMap_rid_nullify (top :: below)

theorem lastFrame_nullify : ∀ (below : List DirFrame) (top : DirFrame),
    (lastFrame (nullifyUpdateMetadata top) (below.map nullifyUpdateMetadata)).isRemove =
      (lastFrame top below).isRemove := by
  intro below
  induction below with
  | nil => intro top; exact nullify_isRemove top
  | cons x xs ih =>
    intro top
    rw [List.map_cons, lastFrame_cons, lastFrame_cons]
    exact ih x

theorem frameLeaf_push (p : String) (it : Option SyncFileItem) (ir : Bool) (sid : Nat) :
    frameLeaf
      { path := p, item := it, isRemove := ir, slotId := sid, affected := 0,
        jobs := [], tasks := [] } = 0 := rfl

theorem frameDir_push (p : String) (it : Option SyncFileItem) (ir : Bool) (sid : Nat) :
    frameDir
      { path := p, item := it, isRemove := ir, slotId := sid, affected := 0,
        jobs := [], tasks := [] } = 1 := rfl

theorem frameLeaf_addTask (f : DirFrame) (it : SyncFileItem) :
    frameLeaf { f with tasks := f.tasks ++ [it] } = frameLeaf f + 1 := by
  simp only [frameLeaf, List.length_append, List.length_cons, List.length_nil]
  omega

theorem frameDir_addTask (f : DirFrame) (it : SyncFileItem) :
    frameDir { f with tasks := f.tasks ++ [it] } = frameDir f := rfl

theorem createJob_of_type_change (item : SyncFileItem) (h : item.instruction = .TYPE_CHANGE) :
    createJob item = some (.leaf item) := by
  simp [createJob, h]

theorem applyOverride_isDirectory (dirs : List String) (i : SyncFileItem) :
    (applyOverride dirs i).isDirectory = i.isDirectory := by
  unfold applyOverride
  split <;> rfl

theorem applyOverride_file (dirs : List String) (i : SyncFileItem) :
    (applyOverride dirs i).file = i.file := by
  unfold applyOverride
  split <;> rfl

theorem stepNormal_parts (item : SyncFileItem) (rest : List SyncFileItem) (s : StartState)
    (hinv : InvState s) :
    partsLeaf (stepNormal item rest s).top (stepNormal item rest s).below
        (stepNormal item rest s).toRemove =
      partsLeaf s.top s.below s.toRemove + (if item.isDirectory = true then 0 else 1) ∧
    partsDir (stepNormal item rest s).top (stepNormal item rest s).below
        (stepNormal item rest s).toRemove =
      partsDir s.top s.below s.toRemove + (if item.isDirectory = true then 1 else 0) ∧
    InvState (stepNormal item rest s) ∧
    (stepNormal item rest s).overrideDirs = nextOverrideDirs item s.overrideDirs ∧
    (stepNormal item rest s).removedDirectory = nextRemovedDirectory item s.removedDirectory := by
  obtain ⟨hp1, hp2, hp3⟩ :=
    popFrames_parts s.below s.top s.toRemove item.destination s.nextId hinv
  obtain ⟨hc1, hc2, hc3, hc4⟩ := hp3
  by_cases hdir : item.isDirectory = true
  · by_cases hrm : item.instruction = Instruction.REMOVE
    · have htc : ¬(item.instruction = Instruction.TYPE_CHANGE ∧ item.direction = Direction.Up) := by
        rintro ⟨h1, _⟩
        rw [hrm] at h1
        exact absurd h1 (by decide)
      refine ⟨?_, ?_, ⟨?_, ?_, ?_, ?_⟩, ?_, ?_⟩ <;>
        simp only [stepNormal, hdir, if_true, if_neg htc, if_pos hrm, InvState, partsInv]
      · simp only [partsLeaf, List.map_cons, List.sum_cons, map_nullify_frameLeaf,
          nullify_frameLeaf, slotLeaf, frameLeaf_push, hdir, if_true]
        simp only [partsLeaf] at hp1
        omega
      · simp only [partsDir, List.map_cons, List.sum_cons, map_nullify_frameDir,
          nullify_frameDir, slotDir, frameDir_push, hdir, if_true]
        simp only [partsDir] at hp2
        omega
      · rw [pendingIds_cons_pending,
          removeIds_cons_remove _ _ _ rfl, removeIds_nullify, hc1]
      · rw [pendingIds_cons_pending]
        exact List.nodup_cons.mpr ⟨fun hm => absurd (hc3 _ hm) (by omega), hc2⟩
      · intro n hm
        rw [pendingIds_cons_pending] at hm
        rcases List.mem_cons.mp hm with rfl | hm2
        · omega
        · exact Nat.lt_trans (hc3 n hm2) (by omega)
      · rw [lastFrame_cons, lastFrame_nullify]
        exact hc4
      · simp [nextOverrideDirs, hrm]
      · simp [nextRemovedDirectory, isRemover, hdir, hrm]
    · by_cases htc : item.instruction = Instruction.TYPE_CHANGE ∧ item.direction = Direction.Up
      · refine ⟨?_, ?_, ⟨?_, ?_, ?_, ?_⟩, ?_, ?_⟩ <;>
          simp only [stepNormal, hdir, if_true, if_pos htc, if_neg hrm, InvState, partsInv]
        · simp only [partsLeaf, List.map_cons, List.sum_cons, frameLeaf_push, hdir, if_true]
          simp only [partsLeaf] at hp1
          omega
        · simp only [partsDir, List.map_cons, List.sum_cons, frameDir_push, hdir, if_true]
          simp only [partsDir] at hp2
          omega
        · rw [removeIds_cons_normal _ _ _ rfl, hc1]
        · exact hc2
        · exact hc3
        · rw [lastFrame_cons]
          exact hc4
        · simp [nextOverrideDirs, hdir, htc.1, htc.2]
        · simp [nextRemovedDirectory, isRemover, hdir, hrm]
      · refine ⟨?_, ?_, ⟨?_, ?_, ?_, ?_⟩, ?_, ?_⟩ <;>
          simp only [stepNormal, hdir, if_true, if_neg htc, if_neg hrm, InvState, partsInv]
        · simp only [partsLeaf, List.map_cons, List.sum_cons, frameLeaf_push, hdir, if_true]
          simp only [partsLeaf] at hp1
          omega
        · simp only [partsDir, List.map_cons, List.sum_cons, frameDir_push, hdir, if_true]
          simp only [partsDir] at hp2
          omega
        · rw [removeIds_cons_normal _ _ _ rfl, hc1]
        · exact hc2
        · exact hc3
        · rw [lastFrame_cons]
          exact hc4
        · simp [nextOverrideDirs, htc]
        · simp [nextRemovedDirectory, isRemover, hdir, hrm]
  · by_cases htch : item.instruction = Instruction.TYPE_CHANGE
    · refine ⟨?_, ?_, ⟨?_, ?_, ?_, ?_⟩, ?_, ?_⟩ <;>
        simp only [stepNormal, hdir, if_false, if_pos htch, createJob_of_type_change item htch,
          InvState, partsInv, Bool.false_eq_true]
      · simp only [partsLeaf, List.map_cons, List.sum_cons, slotLeaf, hdir]
        simp only [partsLeaf] at hp1
        have hl : PJob.leafCount (.leaf item) = 1 := rfl
        rw [hl]
        omega
      · simp only [partsDir, List.map_cons, List.sum_cons, slotDir, hdir]
        simp only [partsDir] at hp2
        have hd2 : PJob.dirCount (.leaf item) = 0 := rfl
        rw [hd2]
        omega
      · rw [pendingIds_cons_job, hc1]
      · rw [pendingIds_cons_job]
        exact hc2
      · intro n hm
        rw [pendingIds_cons_job] at hm
        exact hc3 n hm
      · exact hc4
      · simp [nextOverrideDirs, hdir]
      · simp [nextRemovedDirectory, isRemover, hdir, htch]
    · refine ⟨?_, ?_, ⟨?_, ?_, ?_, ?_⟩, ?_, ?_⟩ <;>
        simp only [stepNormal, hdir, if_false, if_neg htch, InvState, partsInv,
          Bool.false_eq_true]
      · simp only [partsLeaf, frameLeaf_addTask, hdir, Bool.false_eq_true, if_false]
        simp only [partsLeaf] at hp1
        omega
      · simp only [partsDir, frameDir_addTask, hdir, Bool.false_eq_true, if_false]
        simp only [partsDir] at hp2
        omega
      · rw [show removeIds
            { (popFrames item.destination s.top s.below s.toRemove).1 with
              tasks := (popFrames item.destination s.top s.below s.toRemove).1.tasks ++ [item] }
            (popFrames item.destination s.top s.below s.toRemove).2.1 =
          removeIds (popFrames item.destination s.top s.below s.toRemove).1
            (popFrames item.destination s.top s.below s.toRemove).2.1 from
          removeIds_congr _ _ _ _ rfl rfl rfl]
        exact hc1
      · exact hc2
      · exact hc3
      · exact (lastFrame_isRemove_congr
          { (popFrames item.destination s.top s.below s.toRemove).1 with
            tasks := (popFrames item.destination s.top s.below s.toRemove).1.tasks ++ [item] }
          ((popFrames item.destination s.top s.below s.toRemove).1)
          ((popFrames item.destination s.top s.below s.toRemove).2.1) rfl).trans hc4
      · simp [nextOverrideDirs, hdir]
      · simp [nextRemovedDirectory, isRemover, hdir, htch]

theorem processItems_nil (s : StartState) : processItems [] s = s := rfl

theorem processItems_cons (item0 : SyncFileItem) (rest : List SyncFileItem) (s : StartState) :
    processItems (item0 :: rest) s =
      (if s.removedDirectory ≠ "" ∧
          strStartsWith (applyOverride s.overrideDirs item0).file s.removedDirectory then
        if (applyOverride s.overrideDirs item0).instruction = .REMOVE then
          processItems rest (increaseAffectedOnHead s)
        else if (applyOverride s.overrideDirs item0).isDirectory ∧
            ((applyOverride s.overrideDirs item0).instruction = .NEW ∨
             (applyOverride s.overrideDirs item0).instruction = .TYPE_CHANGE) then
          processItems rest (increaseAffectedOnHead s)
        else if (applyOverride s.overrideDirs item0).instruction = .IGNORE then
          processItems rest s
        else processItems rest (stepNormal (applyOverride s.overrideDirs item0) rest s)
      else processItems rest (stepNormal (applyOverride s.overrideDirs item0) rest s)) := rfl

theorem noAbsorption_cons (item0 : SyncFileItem) (rest : List SyncFileItem)
    (ov : List String) (rd : String) :
    noAbsorption (item0 :: rest) ov rd =
      (if rd ≠ "" ∧ strStartsWith (applyOverride ov item0).file rd then false
       else noAbsorption rest (nextOverrideDirs (applyOverride ov item0) ov)
         (nextRemovedDirectory (applyOverride ov item0) rd)) := rfl

theorem nonDirItemCount_cons (i : SyncFileItem) (rest : List SyncFileItem) :
    nonDirItemCount (i :: rest) =
      (if i.isDirectory = true then 0 else 1) + nonDirItemCount rest := by
  by_cases h : i.isDirectory = true <;> simp [nonDirItemCount, List.filter_cons, h] <;> omega

theorem dirItemCount_cons (i : SyncFileItem) (rest : List SyncFileItem) :
    dirItemCount (i :: rest) =
      (if i.isDirectory = true then 1 else 0) + dirItemCount rest := by
  by_cases h : i.isDirectory = true <;> simp [dirItemCount, List.filter_cons, h] <;> omega

theorem processItems_parts : ∀ (items : List SyncFileItem) (s : StartState),
    noAbsorption items s.overrideDirs s.removedDirectory = true →
    InvState s →
    partsLeaf (processItems items s).top (processItems items s).below
        (processItems items s).toRemove =
      partsLeaf s.top s.below s.toRemove + nonDirItemCount items ∧
    partsDir (processItems items s).top (processItems items s).below
        (processItems items s).toRemove =
      partsDir s.top s.below s.toRemove + dirItemCount items ∧
    InvState (processItems items s) := by
  intro items
  induction items with
  | nil =>
    intro s _ hinv
    rw [processItems_nil]
    exact ⟨by simp [nonDirItemCount], by simp [dirItemCount], hinv⟩
  | cons item0 rest ih =>
    intro s hna hinv
    rw [noAbsorption_cons] at hna
    rw [processItems_cons]
    by_cases hcond : s.removedDirectory ≠ "" ∧
        strStartsWith (applyOverride s.overrideDirs item0).file s.removedDirectory = true
    · rw [if_pos hcond] at hna
      exact absurd hna (by decide)
    · rw [if_neg hcond] at hna ⊢
      obtain ⟨hs1, hs2, hs3, hs4, hs5⟩ :=
        stepNormal_parts (applyOverride s.overrideDirs item0) rest s hinv
      have hna2 : noAbsorption rest
          (stepNormal (applyOverride s.overrideDirs item0) rest s).overrideDirs
          (stepNormal (applyOverride s.overrideDirs item0) rest s).removedDirectory = true := by
        rw [hs4, hs5]
        exact hna
      obtain ⟨g1, g2, g3⟩ :=
        ih (stepNormal (applyOverride s.overrideDirs item0) rest s) hna2 hs3
      have hido : (applyOverride s.overrideDirs item0).isDirectory = item0.isDirectory :=
        applyOverride_isDirectory _ _
      refine ⟨?_, ?_, g3⟩
      · rw [g1, hs1, hido, nonDirItemCount_cons]
        by_cases hid : item0.isDirectory = true <;> simp [hid] <;> omega
      · rw [g2, hs2, hido, dirItemCount_cons]
        by_cases hid : item0.isDirectory = true <;> simp [hid] <;> omega

theorem leafCount_dir (it : Option SyncFileItem) (aff : Nat) (jobs : List PJob)
    (tasks : List SyncFileItem) :
    PJob.leafCount (.dir it aff jobs tasks) = PJob.leafCountList jobs + tasks.length := rfl

theorem dirCount_dir (it : Option SyncFileItem) (aff : Nat) (jobs : List PJob)
    (tasks : List SyncFileItem) :
    PJob.dirCount (.dir it aff jobs tasks) = 1 + PJob.dirCountList jobs := rfl

theorem slotsToJobs_sums (slots : List RSlot) (h : pendingIds slots = []) :
    (slots.map slotLeaf).sum = PJob.leafCountList (slotsToJobs slots) ∧
    (slots.map slotDir).sum = PJob.dirCountList (slotsToJobs slots) := by
  induction slots with
  | nil => exact ⟨rfl, rfl⟩
  | cons sl rest ih =>
    cases sl with
    | job j =>
      have h2 : pendingIds rest = [] := by rwa [pendingIds_cons_job] at h
      obtain ⟨a1, a2⟩ := ih h2
      have hsj : slotsToJobs (RSlot.job j :: rest) = j :: slotsToJobs rest := by
        simp [slotsToJobs, List.filterMap_cons]
      constructor
      · rw [List.map_cons, List.sum_cons, a1, hsj, leafCountList_cons]
        rfl
      · rw [List.map_cons, List.sum_cons, a2, hsj, dirCountList_cons]
        rfl
    | pending n =>
      rw [pendingIds_cons_pending] at h
      exact absurd h (by simp)

/-- Claim C3, counterexample: the sorted, duplicate-free vector holding the
removed directory "d" and the removal of "d/a" inside it builds a tree with
no leaf-level job at all (the child removal is absorbed into the directory
job's affected count), although the vector has one non-directory item. -/
theorem claim_C3_counterexample :
    OwncloudPropagator.sortedItems
      [{ file := "d", instruction := .REMOVE, isDirectory := true },
       { file := "d/a", instruction := .REMOVE }] ∧
    OwncloudPropagator.distinctPaths
      [{ file := "d", instruction := .REMOVE, isDirectory := true },
       { file := "d/a", instruction := .REMOVE }] ∧
    PJob.leafCount (OwncloudPropagator.start
      [{ file := "d", instruction := .REMOVE, isDirectory := true },
       { file := "d/a", instruction := .REMOVE }]) = 0 ∧
    OwncloudPropagator.nonDirItemCount
      [{ file := "d", instruction := .REMOVE, isDirectory := true },
       { file := "d/a", instruction := .REMOVE }] = 1 := by
  refine ⟨?_, ?_, ?_, ?_⟩
  · unfold OwncloudPropagator.sortedItems
    decide
  · unfold OwncloudPropagator.distinctPaths
    decide
  · decide
  · decide

/-- Claim C3, amended: for a sorted vector of items with pairwise distinct
paths in which no item falls inside a pending removed-directory prefix (no
absorption happens), the job tree built by OwncloudPropagator::start
contains exactly one leaf-level job per non-directory item (counting
appended tasks, which become leaf jobs when scheduled) and exactly one
PropagateDirectory per directory item besides the root. -/
theorem claim_C3_amended (items : List SyncFileItem)
    (hsort : OwncloudPropagator.sortedItems items)
    (hdist : OwncloudPropagator.distinctPaths items)
    (hna : OwncloudPropagator.noAbsorption items [] "" = true) :
    PJob.leafCount (OwncloudPropagator.start items) =
      OwncloudPropagator.nonDirItemCount items ∧
    PJob.dirCount (OwncloudPropagator.start items) =
      1 + OwncloudPropagator.dirItemCount items := by
  have hinv0 : InvState initialStartState :=
    ⟨rfl, List.nodup_nil, fun n h => absurd h (List.not_mem_nil n), rfl⟩
  have hna0 : noAbsorption items initialStartState.overrideDirs
      initialStartState.removedDirectory = true := hna
  obtain ⟨hl, hd2, hinvf⟩ := processItems_parts items initialStartState hna0 hinv0
  obtain ⟨al, ad, ainv⟩ := popAllFrames_parts
    (processItems items initialStartState).below
    (processItems items initialStartState).top
    (processItems items initialStartState).toRemove
    (processItems items initialStartState).nextId hinvf
  obtain ⟨ac1, ac2, ac3, ac4⟩ := ainv
  have htopnr : (popAllFrames (processItems items initialStartState).top
      (processItems items initialStartState).below
      (processItems items initialStartState).toRemove).1.isRemove = false := ac4
  have hpend : pendingIds (popAllFrames (processItems items initialStartState).top
      (processItems items initialStartState).below
      (processItems items initialStartState).toRemove).2 = [] := by
    rw [ac1]
    simp [removeIds, List.filterMap_cons, htopnr]
  obtain ⟨se1, se2⟩ := slotsToJobs_sums _ hpend
  have hstart : OwncloudPropagator.start items =
      .dir (popAllFrames (processItems items initialStartState).top
          (processItems items initialStartState).below
          (processItems items initialStartState).toRemove).1.item
        (popAllFrames (processItems items initialStartState).top
          (processItems items initialStartState).below
          (processItems items initialStartState).toRemove).1.affected
        ((popAllFrames (processItems items initialStartState).top
          (processItems items initialStartState).below
          (processItems items initialStartState).toRemove).1.jobs ++
          slotsToJobs (popAllFrames (processItems items initialStartState).top
            (processItems items initialStartState).below
            (processItems items initialStartState).toRemove).2)
        (popAllFrames (processItems items initialStartState).top
          (processItems items initialStartState).below
          (processItems items initialStartState).toRemove).1.tasks := rfl
  simp only [partsLeaf, partsDir, frameLeaf, frameDir, List.map_nil, List.sum_nil,
    List.length_nil] at al ad hl hd2
  have z1 : PJob.leafCountList initialStartState.top.jobs = 0 := rfl
  have z2 : initialStartState.top.tasks.length = 0 := rfl
  have z3 : (List.map frameLeaf initialStartState.below).sum = 0 := rfl
  have z4 : (List.map slotLeaf initialStartState.toRemove).sum = 0 := rfl
  have z5 : PJob.dirCountList initialStartState.top.jobs = 0 := rfl
  have z6 : (List.map frameDir initialStartState.below).sum = 0 := rfl
  have z7 : (List.map slotDir initialStartState.toRemove).sum = 0 := rfl
  constructor
  · rw [hstart, leafCount_dir, leafCountList_append, ← se1]
    omega
  · rw [hstart, dirCount_dir, dirCountList_append, ← se2]
    omega

/-- Witness for the amended claim C3 at a concrete input: the sorted vector
holding the new directory "d" and the file "d/a" to synchronize, which has
no removed-directory absorption. -/
theorem claim_C3_amended_witness :
    OwncloudPropagator.sortedItems
      [{ file := "d", instruction := .NEW, direction := .Down, isDirectory := true },
       { file := "d/a", instruction := .SYNC }] ∧
    OwncloudPropagator.distinctPaths
      [{ file := "d", instruction := .NEW, direction := .Down, isDirectory := true },
       { file := "d/a", instruction := .SYNC }] ∧
    OwncloudPropagator.noAbsorption
      [{ file := "d", instruction := .NEW, direction := .Down, isDirectory := true },
       { file := "d/a", instruction := .SYNC }] [] "" = true ∧
    (PJob.leafCount (OwncloudPropagator.start
        [{ file := "d", instruction := .NEW, direction := .Down, isDirectory := true },
         { file := "d/a", instruction := .SYNC }]) =
      OwncloudPropagator.nonDirItemCount
        [{ file := "d", instruction := .NEW, direction := .Down, isDirectory := true },
         { file := "d/a", instruction := .SYNC }] ∧
     PJob.dirCount (OwncloudPropagator.start
        [{ file := "d", instruction := .NEW, direction := .Down, isDirectory := true },
         { file := "d/a", instruction := .SYNC }]) =
      1 + OwncloudPropagator.dirItemCount
        [{ file := "d", instruction := .NEW, direction := .Down, isDirectory := true },
         { file := "d/a", instruction := .SYNC }]) :=
  ⟨by unfold OwncloudPropagator.sortedItems; decide,
   by unfold OwncloudPropagator.distinctPaths; decide,
   by decide,
   claim_C3_amended _
     (by unfold OwncloudPropagator.sortedItems; decide)
     (by unfold OwncloudPropagator.distinctPaths; decide)
     (by decide)⟩

end OCC
